import Mathlib

/-!
Verification development for the format-conversion and repair engine in
src/lib/json-utils.ts.  The JavaScript code is shallowly embedded: strings
are lists of Unicode scalar values (JS code-unit strings with lone
surrogates are outside the model), JS numbers are exact normalized
decimals mantissa * 10 ^ exponent (float64 rounding and the exponent
display notation of extreme magnitudes are not modelled; every numeral the
claims exercise is small), and the external libraries the code calls
(js-yaml, xml-js, json2csv, atob, decodeURIComponent) are either abstract
parameters or explicit models, as noted at each definition.
-/

/-! ### Characters and strings -/

/-- The JS string model: a list of Unicode scalar values. -/
abbrev JStr := List Char

/-- Left brace character, written via its code point. -/
def lbrace : Char := Char.ofNat 123

/-- Right brace character, written via its code point. -/
def rbrace : Char := Char.ofNat 125

/-- Single-quote character, written via its code point. -/
def squote : Char := Char.ofNat 39

/-- Double-quote character. -/
def dquote : Char := '"'

/-- Backslash character. -/
def bslash : Char := '\\'

/-- Whitespace accepted by strict JSON.parse: space, tab, newline, carriage return. -/
def jsonWsChar (c : Char) : Bool :=
  c = ' ' || c = '\t' || c = '\n' || c = '\r'

/-- Whitespace for the JS regex class backslash-s and for String.prototype.trim:
space, tab, newline, vertical tab, form feed, carriage return, NBSP, BOM.
(The rarer Unicode space separators are not modelled.) -/
def jsWsChar (c : Char) : Bool :=
  c = ' ' || c = '\t' || c = '\n' || c = Char.ofNat 11 || c = Char.ofNat 12 ||
  c = '\r' || c = Char.ofNat 160 || c = Char.ofNat 65279

/-- String.prototype.trim: drop JS whitespace from both ends. -/
def jsTrim (s : JStr) : JStr :=
  ((s.dropWhile jsWsChar).reverse.dropWhile jsWsChar).reverse

/-- ASCII lower-casing, modelling String.prototype.toLowerCase on the
ASCII range (the inputs the code lower-cases are compared against the
ASCII literal "curl"). -/
def jsToLower (s : JStr) : JStr :=
  s.map fun c => if 'A' ≤ c && c ≤ 'Z' then Char.ofNat (c.toNat + 32) else c

/-- String.prototype.split on a single separator character.  JS split
never returns an empty array: splitting the empty string yields one empty
piece. -/
def splitOnChar (sep : Char) : JStr → List JStr
  | [] => [[]]
  | c :: cs =>
    let rest := splitOnChar sep cs
    if c = sep then [] :: rest
    else match rest with
      | [] => [[c]]
      | p :: ps => (c :: p) :: ps

/-- Substring containment, modelling String.prototype.includes. -/
def hasSubstr (pat : JStr) (s : JStr) : Bool :=
  match s with
  | [] => pat.isEmpty
  | _ :: cs => pat.isPrefixOf s || hasSubstr pat cs

/-- Count the occurrences of one character, modelling
(text.match(single-char-regex) or []).length. -/
def countChar (c : Char) (s : JStr) : Nat :=
  s.foldl (fun n d => if d = c then n + 1 else n) 0

/-! ### JS numbers: exact normalized decimals -/

/-- A JS number modelled as an exact decimal sign * mant * 10 ^ exp.
Canonical form (maintained by mkJNum): mant is zero only as false/0/0,
and otherwise is not divisible by 10, so structural equality is value
equality.  Float64 rounding is not modelled. -/
structure JNum where
  neg : Bool
  mant : Nat
  exp : Int
deriving DecidableEq, Repr

/-- Push factors of 10 from the mantissa into the exponent (fuel-guided:
the mantissa itself is always enough fuel). -/
def jnumNorm : Nat → Nat → Int → Nat × Int
  | 0, m, e => (m, e)
  | f + 1, m, e =>
    if m ≠ 0 ∧ m % 10 = 0 then jnumNorm f (m / 10) (e + 1) else (m, e)

/-- Build a canonical JNum. -/
def mkJNum (neg : Bool) (m : Nat) (e : Int) : JNum :=
  if m = 0 then ⟨false, 0, 0⟩
  else
    let p := jnumNorm m m e
    ⟨neg, p.1, p.2⟩

/-- The number zero. -/
def jnumZero : JNum := ⟨false, 0, 0⟩

/-! ### The generic JSON value -/

/-- A JS value as produced by JSON.parse: the pivot data model.  Object
members are kept in JS property order (array-index keys ascending first,
then string keys in insertion order); keys are unique. -/
inductive Json where
  | jnull
  | jbool (b : Bool)
  | jnum (n : JNum)
  | jstr (s : JStr)
  | jarr (elems : List Json)
  | jobj (mems : List (JStr × Json))


mutual

/-- Decidable equality of Json values (written by hand: the derive
handler does not support the nested inductive). -/
def jsonDecEq : (a b : Json) → Decidable (a = b)
  | .jnull, .jnull => .isTrue rfl
  | .jbool a, .jbool b =>
    match decEq a b with
    | .isTrue h => .isTrue (by rw [h])
    | .isFalse h => .isFalse (by intro e; cases e; exact h rfl)
  | .jnum a, .jnum b =>
    match decEq a b with
    | .isTrue h => .isTrue (by rw [h])
    | .isFalse h => .isFalse (by intro e; cases e; exact h rfl)
  | .jstr a, .jstr b =>
    match decEq a b with
    | .isTrue h => .isTrue (by rw [h])
    | .isFalse h => .isFalse (by intro e; cases e; exact h rfl)
  | .jarr a, .jarr b =>
    match jsonDecEqList a b with
    | .isTrue h => .isTrue (by rw [h])
    | .isFalse h => .isFalse (by intro e; cases e; exact h rfl)
  | .jobj a, .jobj b =>
    match jsonDecEqMems a b with
    | .isTrue h => .isTrue (by rw [h])
    | .isFalse h => .isFalse (by intro e; cases e; exact h rfl)
  | .jnull, .jbool _ => .isFalse (by intro e; exact Json.noConfusion e)
  | .jnull, .jnum _ => .isFalse (by intro e; exact Json.noConfusion e)
  | .jnull, .jstr _ => .isFalse (by intro e; exact Json.noConfusion e)
  | .jnull, .jarr _ => .isFalse (by intro e; exact Json.noConfusion e)
  | .jnull, .jobj _ => .isFalse (by intro e; exact Json.noConfusion e)
  | .jbool _, .jnull => .isFalse (by intro e; exact Json.noConfusion e)
  | .jbool _, .jnum _ => .isFalse (by intro e; exact Json.noConfusion e)
  | .jbool _, .jstr _ => .isFalse (by intro e; exact Json.noConfusion e)
  | .jbool _, .jarr _ => .isFalse (by intro e; exact Json.noConfusion e)
  | .jbool _, .jobj _ => .isFalse (by intro e; exact Json.noConfusion e)
  | .jnum _, .jnull => .isFalse (by intro e; exact Json.noConfusion e)
  | .jnum _, .jbool _ => .isFalse (by intro e; exact Json.noConfusion e)
  | .jnum _, .jstr _ => .isFalse (by intro e; exact Json.noConfusion e)
  | .jnum _, .jarr _ => .isFalse (by intro e; exact Json.noConfusion e)
  | .jnum _, .jobj _ => .isFalse (by intro e; exact Json.noConfusion e)
  | .jstr _, .jnull => .isFalse (by intro e; exact Json.noConfusion e)
  | .jstr _, .jbool _ => .isFalse (by intro e; exact Json.noConfusion e)
  | .jstr _, .jnum _ => .isFalse (by intro e; exact Json.noConfusion e)
  | .jstr _, .jarr _ => .isFalse (by intro e; exact Json.noConfusion e)
  | .jstr _, .jobj _ => .isFalse (by intro e; exact Json.noConfusion e)
  | .jarr _, .jnull => .isFalse (by intro e; exact Json.noConfusion e)
  | .jarr _, .jbool _ => .isFalse (by intro e; exact Json.noConfusion e)
  | .jarr _, .jnum _ => .isFalse (by intro e; exact Json.noConfusion e)
  | .jarr _, .jstr _ => .isFalse (by intro e; exact Json.noConfusion e)
  | .jarr _, .jobj _ => .isFalse (by intro e; exact Json.noConfusion e)
  | .jobj _, .jnull => .isFalse (by intro e; exact Json.noConfusion e)
  | .jobj _, .jbool _ => .isFalse (by intro e; exact Json.noConfusion e)
  | .jobj _, .jnum _ => .isFalse (by intro e; exact Json.noConfusion e)
  | .jobj _, .jstr _ => .isFalse (by intro e; exact Json.noConfusion e)
  | .jobj _, .jarr _ => .isFalse (by intro e; exact Json.noConfusion e)

/-- Decidable equality of Json lists. -/
def jsonDecEqList : (a b : List Json) → Decidable (a = b)
  | [], [] => .isTrue rfl
  | [], _ :: _ => .isFalse (by intro e; exact List.noConfusion e)
  | _ :: _, [] => .isFalse (by intro e; exact List.noConfusion e)
  | x :: xs, y :: ys =>
    match jsonDecEq x y with
    | .isTrue h1 =>
      match jsonDecEqList xs ys with
      | .isTrue h2 => .isTrue (by rw [h1, h2])
      | .isFalse h2 => .isFalse (by intro e; cases e; exact h2 rfl)
    | .isFalse h1 => .isFalse (by intro e; cases e; exact h1 rfl)

/-- Decidable equality of Json member lists. -/
def jsonDecEqMems : (a b : List (JStr × Json)) → Decidable (a = b)
  | [], [] => .isTrue rfl
  | [], _ :: _ => .isFalse (by intro e; exact List.noConfusion e)
  | _ :: _, [] => .isFalse (by intro e; exact List.noConfusion e)
  | (k1, v1) :: xs, (k2, v2) :: ys =>
    match decEq k1 k2 with
    | .isTrue hk =>
      match jsonDecEq v1 v2 with
      | .isTrue h1 =>
        match jsonDecEqMems xs ys with
        | .isTrue h2 => .isTrue (by rw [hk, h1, h2])
        | .isFalse h2 => .isFalse (by intro e; cases e; exact h2 rfl)
      | .isFalse h1 => .isFalse (by intro e; cases e; exact h1 rfl)
    | .isFalse hk => .isFalse (by intro e; cases e; exact hk rfl)

end

instance : DecidableEq Json := jsonDecEq

/-- Digits of a decimal numeral string, as a number. -/
def digitsNat (ds : JStr) : Nat :=
  ds.foldl (fun n c => n * 10 + (c.toNat - '0'.toNat)) 0

/-- Is this character an ASCII digit. -/
def isDigitCh (c : Char) : Bool := '0' ≤ c && c ≤ '9'

/-- Is a key an array-index property name in the JS sense: the canonical
decimal form of an integer below 2^32 - 1.  Such keys are enumerated
first, in ascending numeric order, by JS objects. -/
def isIdxKey (k : JStr) : Bool :=
  match k with
  | [] => false
  | c :: cs =>
    (k.all isDigitCh) && (c ≠ '0' || cs.isEmpty) && digitsNat k < 4294967295

/-- Insert one array-index key into a list sorted by numeric value. -/
def idxInsert {A : Type} (kv : JStr × A) : List (JStr × A) → List (JStr × A)
  | [] => [kv]
  | h :: t =>
    if digitsNat kv.1 ≤ digitsNat h.1 then kv :: h :: t
    else h :: idxInsert kv t

/-- Sort array-index keys by numeric value (insertion sort; keys are unique). -/
def idxSort {A : Type} (l : List (JStr × A)) : List (JStr × A) :=
  l.foldr idxInsert []

/-- JS property order on a deduplicated member list: array-index keys in
ascending numeric order first, then the remaining keys in insertion
order. -/
def jsObjOrder {A : Type} (l : List (JStr × A)) : List (JStr × A) :=
  idxSort (l.filter fun kv => isIdxKey kv.1) ++ l.filter fun kv => ¬ isIdxKey kv.1

/-- JS property write obj[k] = v on an ordered member list: overwrite in
place when the key exists, append otherwise. -/
def jsUpsert {A : Type} : List (JStr × A) → JStr → A → List (JStr × A)
  | [], k, v => [(k, v)]
  | (k0, v0) :: t, k, v =>
    if k0 = k then (k0, v) :: t else (k0, v0) :: jsUpsert t k v

/-- Record the successive property writes of a member list, in order. -/
def jsRecord {A : Type} (l : List (JStr × A)) : List (JStr × A) :=
  jsObjOrder (l.foldl (fun acc kv => jsUpsert acc kv.1 kv.2) [])

/-- Build a JS object value from successively written members. -/
def mkObj (l : List (JStr × Json)) : Json :=
  Json.jobj (jsRecord l)

/-! ### JSON.parse -/

/-- Skip strict-JSON whitespace. -/
def skipWs (s : JStr) : JStr := s.dropWhile jsonWsChar

/-- Value of one hex digit. -/
def hexVal (c : Char) : Option Nat :=
  let n := c.toNat
  if 48 ≤ n ∧ n ≤ 57 then some (n - 48)
  else if 97 ≤ n ∧ n ≤ 102 then some (n - 87)
  else if 65 ≤ n ∧ n ≤ 70 then some (n - 55)
  else none

/-- Value of four hex digits. -/
def hex4 (a b c d : Char) : Option Nat :=
  match hexVal a, hexVal b, hexVal c, hexVal d with
  | some x, some y, some z, some w => some (((x * 16 + y) * 16 + z) * 16 + w)
  | _, _, _, _ => none

/-- Short escape map of JSON strings. -/
def jsonEscMap (c : Char) : Option Char :=
  if c = dquote then some dquote
  else if c = bslash then some bslash
  else if c = '/' then some '/'
  else if c = 'b' then some (Char.ofNat 8)
  else if c = 'f' then some (Char.ofNat 12)
  else if c = 'n' then some '\n'
  else if c = 'r' then some '\r'
  else if c = 't' then some '\t'
  else none

/-- Code point is a high surrogate. -/
def isHighSurr (n : Nat) : Bool := 55296 ≤ n && n ≤ 56319

/-- Code point is a low surrogate. -/
def isLowSurr (n : Nat) : Bool := 56320 ≤ n && n ≤ 57343

/-- Combine a surrogate pair into one scalar value. -/
def surrPair (hi lo : Nat) : Char :=
  Char.ofNat ((hi - 55296) * 1024 + (lo - 56320) + 65536)

/-- Parse the body of a JSON string after the opening quote, returning the
decoded characters and the rest of the input after the closing quote.
Escaped surrogate pairs combine into one scalar; an unpaired escaped
surrogate (representable in JS, not in the scalar model) decodes to NUL. -/
def jpStr : Nat → JStr → Option (JStr × JStr)
  | 0, _ => none
  | _, [] => none
  | f + 1, c :: cs =>
    if c = dquote then some ([], cs)
    else if c = bslash then
      match cs with
      | [] => none
      | e :: cs2 =>
        if e = 'u' then
          match cs2 with
          | a :: b :: c3 :: d :: cs3 =>
            match hex4 a b c3 d with
            | none => none
            | some n =>
              if isHighSurr n then
                match cs3 with
                | b2 :: u2 :: a4 :: b4 :: c4 :: d4 :: cs4 =>
                  if b2 = bslash && u2 = 'u' then
                    match hex4 a4 b4 c4 d4 with
                    | some n2 =>
                      if isLowSurr n2 then
                        (jpStr f cs4).map fun p => (surrPair n n2 :: p.1, p.2)
                      else (jpStr f cs3).map fun p => (Char.ofNat n :: p.1, p.2)
                    | none => (jpStr f cs3).map fun p => (Char.ofNat n :: p.1, p.2)
                  else (jpStr f cs3).map fun p => (Char.ofNat n :: p.1, p.2)
                | _ => (jpStr f cs3).map fun p => (Char.ofNat n :: p.1, p.2)
              else (jpStr f cs3).map fun p => (Char.ofNat n :: p.1, p.2)
          | _ => none
        else
          match jsonEscMap e with
          | some r => (jpStr f cs2).map fun p => (r :: p.1, p.2)
          | none => none
    else if c.toNat < 32 then none
    else (jpStr f cs).map fun p => (c :: p.1, p.2)

/-- Parse a JSON string body with enough fuel for its length. -/
def jpString (cs : JStr) : Option (JStr × JStr) := jpStr (cs.length + 1) cs

/-- Take a maximal run of ASCII digits. -/
def takeDigits : JStr → JStr × JStr
  | [] => ([], [])
  | c :: cs =>
    if isDigitCh c then
      let p := takeDigits cs
      (c :: p.1, p.2)
    else ([], c :: cs)

/-- Parse a JSON number (strict grammar: no leading plus, no leading
zeros, a fraction or exponent part must have at least one digit). -/
def jpNum (s : JStr) : Option (JNum × JStr) :=
  let (neg, s1) := match s with
    | c :: cs => if c = '-' then (true, cs) else (false, s)
    | [] => (false, s)
  match takeDigits s1 with
  | ([], _) => none
  | (intDs, r1) =>
    if intDs.head? = some '0' && intDs.length ≠ 1 then none
    else
      let (fracDs, r2) : JStr × JStr := match r1 with
        | '.' :: r => takeDigits r
        | _ => ([], r1)
      if r1.head? = some '.' && fracDs.isEmpty then none
      else
        let expPart : Option (Int × JStr) := match r2 with
          | c :: r =>
            if c = 'e' || c = 'E' then
              let (esign, r3) : Bool × JStr := match r with
                | '-' :: t => (true, t)
                | '+' :: t => (false, t)
                | _ => (false, r)
              match takeDigits r3 with
              | ([], _) => none
              | (eds, r4) =>
                some ((if esign then -(digitsNat eds : Int) else (digitsNat eds : Int)), r4)
            else some (0, r2)
          | [] => some (0, r2)
        match expPart with
        | none => none
        | some (e, rest) =>
          some (mkJNum neg (digitsNat (intDs ++ fracDs)) (e - fracDs.length), rest)

mutual

/-- Parse one JSON value (leading whitespace allowed), with fuel. -/
def jpVal : Nat → JStr → Option (Json × JStr)
  | 0, _ => none
  | f + 1, s =>
    match skipWs s with
    | [] => none
    | c :: cs =>
      if c = 'n' then
        match cs with
        | 'u' :: 'l' :: 'l' :: r => some (Json.jnull, r)
        | _ => none
      else if c = 't' then
        match cs with
        | 'r' :: 'u' :: 'e' :: r => some (Json.jbool true, r)
        | _ => none
      else if c = 'f' then
        match cs with
        | 'a' :: 'l' :: 's' :: 'e' :: r => some (Json.jbool false, r)
        | _ => none
      else if c = dquote then
        (jpString cs).map fun p => (Json.jstr p.1, p.2)
      else if c = lbrace then
        match skipWs cs with
        | d :: r =>
          if d = rbrace then some (Json.jobj [], r)
          else jpMems f (d :: r) []
        | [] => none
      else if c = '[' then
        match skipWs cs with
        | ']' :: r => some (Json.jarr [], r)
        | r => jpElems f r []
      else if c = '-' || isDigitCh c then
        (jpNum (c :: cs)).map fun p => (Json.jnum p.1, p.2)
      else none

/-- Parse the elements of a nonempty array, accumulating in reverse. -/
def jpElems : Nat → JStr → List Json → Option (Json × JStr)
  | 0, _, _ => none
  | f + 1, s, acc =>
    match jpVal f s with
    | none => none
    | some (v, r) =>
      match skipWs r with
      | ',' :: r2 => jpElems f r2 (v :: acc)
      | ']' :: r2 => some (Json.jarr (v :: acc).reverse, r2)
      | _ => none

/-- Parse the members of a nonempty object (cursor at a key quote),
accumulating raw writes in order; JS property order and duplicate-key
overwriting are applied on closing. -/
def jpMems : Nat → JStr → List (JStr × Json) → Option (Json × JStr)
  | 0, _, _ => none
  | f + 1, s, acc =>
    match s with
    | c :: cs =>
      if c = dquote then
        match jpString cs with
        | none => none
        | some (k, r1) =>
          match skipWs r1 with
          | ':' :: r2 =>
            match jpVal f r2 with
            | none => none
            | some (v, r3) =>
              match skipWs r3 with
              | ',' :: r4 =>
                match skipWs r4 with
                | c2 :: r5 => jpMems f (c2 :: r5) (acc ++ [(k, v)])
                | [] => none
              | d :: r4 =>
                if d = rbrace then some (mkObj (acc ++ [(k, v)]), r4)
                else none
              | [] => none
          | _ => none
      else none
    | [] => none

end

/-- JSON.parse: parse a complete JSON text (whitespace allowed around the
single top-level value).  Strict: anything the grammar rejects is none. -/
def jsonParse (s : JStr) : Option Json :=
  match jpVal (2 * s.length + 2) s with
  | some (v, r) => if skipWs r = [] then some v else none
  | none => none

/-! ### JSON.stringify -/

/-- One lowercase hex digit. -/
def hexDigit (n : Nat) : Char :=
  if n < 10 then Char.ofNat ('0'.toNat + n) else Char.ofNat ('a'.toNat + n - 10)

/-- Escape of one character inside a JSON string literal, as
JSON.stringify emits it: the two-character escapes for quote, backslash
and the common controls, a lowercase unicode escape for other controls,
and the character itself otherwise. -/
def escChar (c : Char) : JStr :=
  if c = dquote then [bslash, dquote]
  else if c = bslash then [bslash, bslash]
  else if c = Char.ofNat 8 then [bslash, 'b']
  else if c = '\t' then [bslash, 't']
  else if c = '\n' then [bslash, 'n']
  else if c = Char.ofNat 12 then [bslash, 'f']
  else if c = '\r' then [bslash, 'r']
  else if c.toNat < 32 then
    [bslash, 'u', '0', '0', hexDigit (c.toNat / 16), hexDigit (c.toNat % 16)]
  else [c]

/-- Escaped body of a JSON string literal. -/
def escBody (s : JStr) : JStr := s.foldr (fun c acc => escChar c ++ acc) []

/-- A quoted JSON string literal. -/
def quoteStr (s : JStr) : JStr := dquote :: escBody s ++ [dquote]

/-- Decimal digits of a natural number. -/
def natDigits (n : Nat) : JStr :=
  (Nat.toDigits 10 n).map id

/-- Print a JS number the way String or JSON.stringify does on the
ordinary range: plain decimal notation.  (JS switches to exponent
notation beyond 1e21 and below 1e-6; that regime is not modelled.) -/
def jnumToStr (n : JNum) : JStr :=
  let body :=
    if 0 ≤ n.exp then natDigits n.mant ++ List.replicate n.exp.toNat '0'
    else
      let k := (-n.exp).toNat
      let ds := natDigits n.mant
      if k < ds.length then
        ds.take (ds.length - k) ++ '.' :: ds.drop (ds.length - k)
      else '0' :: '.' :: List.replicate (k - ds.length) '0' ++ ds
  if n.neg && n.mant ≠ 0 then '-' :: body else body

/-- Indentation of a given width. -/
def pad (n : Nat) : JStr := List.replicate n ' '

mutual

/-- JSON.stringify with an indent width (0 renders the compact form that
a null indent argument produces) at a nesting depth. -/
def jStringify : Json → Nat → Nat → JStr
  | Json.jnull, _, _ => ['n', 'u', 'l', 'l']
  | Json.jbool true, _, _ => ['t', 'r', 'u', 'e']
  | Json.jbool false, _, _ => ['f', 'a', 'l', 's', 'e']
  | Json.jnum n, _, _ => jnumToStr n
  | Json.jstr s, _, _ => quoteStr s
  | Json.jarr [], _, _ => ['[', ']']
  | Json.jarr (e :: es), ind, d =>
    if ind = 0 then '[' :: jStringifyArr (e :: es) 0 (d + 1) ++ [']']
    else
      '[' :: '\n' :: pad (ind * (d + 1)) ++ jStringifyArr (e :: es) ind (d + 1) ++
        '\n' :: pad (ind * d) ++ [']']
  | Json.jobj [], _, _ => [lbrace, rbrace]
  | Json.jobj (m :: ms), ind, d =>
    if ind = 0 then lbrace :: jStringifyMems (m :: ms) 0 (d + 1) ++ [rbrace]
    else
      lbrace :: '\n' :: pad (ind * (d + 1)) ++ jStringifyMems (m :: ms) ind (d + 1) ++
        '\n' :: pad (ind * d) ++ [rbrace]

/-- Comma-joined array elements (indented variants separate with a
newline and the inner padding). -/
def jStringifyArr : List Json → Nat → Nat → JStr
  | [], _, _ => []
  | [e], ind, d => jStringify e ind d
  | e :: e2 :: es, ind, d =>
    jStringify e ind d ++
      (if ind = 0 then [','] else ',' :: '\n' :: pad (ind * d)) ++
      jStringifyArr (e2 :: es) ind d

/-- Comma-joined object members; the indented form puts a space after
the colon, the compact form does not. -/
def jStringifyMems : List (JStr × Json) → Nat → Nat → JStr
  | [], _, _ => []
  | [(k, v)], ind, d =>
    quoteStr k ++ (if ind = 0 then [':'] else [':', ' ']) ++ jStringify v ind d
  | (k, v) :: m2 :: ms, ind, d =>
    quoteStr k ++ (if ind = 0 then [':'] else [':', ' ']) ++ jStringify v ind d ++
      (if ind = 0 then [','] else ',' :: '\n' :: pad (ind * d)) ++
      jStringifyMems (m2 :: ms) ind d

end

/-- JSON.stringify at an indent width, from depth zero. -/
def jsonStringify (v : Json) (ind : Nat) : JStr := jStringify v ind 0

/-- UTF-8 byte size of a text, modelling new Blob([s]).size. -/
def utf8Size (s : JStr) : Nat :=
  s.foldl (fun n c => n + c.utf8Size) 0

/-! ### A backtracking regex engine with JS match semantics

The source applies a fixed set of JS regular expressions.  Each one is
embedded as a term of RE below and run by a continuation-passing
backtracking matcher that mirrors JS semantics: leftmost start position,
alternatives tried left to right, greedy and lazy quantifiers by attempt
order, capture groups, and single-character negative lookbehind. -/

/-- Regex abstract syntax (the fragment the source uses). -/
inductive RE where
  | eps
  | cls (p : Char → Bool)
  | seq (a b : RE)
  | alt (a b : RE)
  | star (a : RE) (lazy : Bool)
  | opt (a : RE) (lazy : Bool)
  | grp (i : Nat) (a : RE)
  | nlb (p : Char → Bool)
  | bos
  | eos
  | eolm

/-- Capture environment: latest write for an index wins. -/
abbrev Caps := List (Nat × JStr)

/-- Record a capture. -/
def capSet (cp : Caps) (i : Nat) (v : JStr) : Caps := (i, v) :: cp

/-- Read a capture (empty when the group never matched, as JS replace
does with an unmatched group). -/
def capGet (cp : Caps) (i : Nat) : JStr :=
  match cp.find? fun e => e.1 = i with
  | some e => e.2
  | none => []

/-- End-of-line test for a multiline dollar: end of input or before a
line terminator. -/
def atEolm (aft : List Char) : Bool :=
  match aft with
  | [] => true
  | c :: _ => c = '\n' || c = '\r' || c = Char.ofNat 8232 || c = Char.ofNat 8233

/-- Structural size of a regex, used to budget matcher fuel. -/
def reSize : RE → Nat
  | .eps => 1
  | .cls _ => 1
  | .seq a b => 1 + reSize a + reSize b
  | .alt a b => 1 + reSize a + reSize b
  | .star a _ => 1 + reSize a
  | .opt a _ => 1 + reSize a
  | .grp _ a => 1 + reSize a
  | .nlb _ => 1
  | .bos => 1
  | .eos => 1
  | .eolm => 1

/-- The matcher.  bef is the reversed text before the cursor (for
lookbehind and capture extraction), aft the text after it; k is the
continuation.  Recursion is structural on fuel (decremented at every
step so the kernel can evaluate it); a continuation resumes with the
fuel captured at its creation, so the budget chosen in reTryAt, which
covers the pattern depth plus one unit per quantifier iteration, is
never exhausted on the embedded patterns, whose starred bodies all
consume input (the engine also stops iterating a quantifier that makes
no progress, as JS does). -/
def reM {ρ : Type} : Nat → RE → List Char → List Char → Caps →
    (List Char → List Char → Caps → Option ρ) → Option ρ
  | 0, _, _, _, _, _ => none
  | _ + 1, .eps, bef, aft, cp, k => k bef aft cp
  | _ + 1, .cls p, bef, aft, cp, k =>
    match aft with
    | c :: r => if p c then k (c :: bef) r cp else none
    | [] => none
  | f + 1, .seq a b, bef, aft, cp, k =>
    reM f a bef aft cp fun b2 a2 c2 => reM f b b2 a2 c2 k
  | f + 1, .alt a b, bef, aft, cp, k =>
    match reM f a bef aft cp k with
    | some r => some r
    | none => reM f b bef aft cp k
  | f + 1, .opt a lz, bef, aft, cp, k =>
    if lz then
      match k bef aft cp with
      | some r => some r
      | none => reM f a bef aft cp k
    else
      match reM f a bef aft cp k with
      | some r => some r
      | none => k bef aft cp
  | f + 1, .star a lz, bef, aft, cp, k =>
    if lz then
      match k bef aft cp with
      | some r => some r
      | none =>
        reM f a bef aft cp fun b2 a2 c2 =>
          if a2.length = aft.length then none else reM f (.star a lz) b2 a2 c2 k
    else
      match reM f a bef aft cp fun b2 a2 c2 =>
          if a2.length = aft.length then none else reM f (.star a lz) b2 a2 c2 k with
      | some r => some r
      | none => k bef aft cp
  | f + 1, .grp i a, bef, aft, cp, k =>
    reM f a bef aft cp fun b2 a2 c2 =>
      k b2 a2 (capSet c2 i (b2.take (b2.length - bef.length)).reverse)
  | _ + 1, .nlb p, bef, aft, cp, k =>
    match bef with
    | [] => k bef aft cp
    | c :: _ => if p c then none else k bef aft cp
  | _ + 1, .bos, bef, aft, cp, k => if bef.isEmpty then k bef aft cp else none
  | _ + 1, .eos, bef, aft, cp, k => if aft.isEmpty then k bef aft cp else none
  | _ + 1, .eolm, bef, aft, cp, k => if atEolm aft then k bef aft cp else none

/-- Attempt a match anchored at the cursor; returns the final cursor and
captures of the first (JS-order) match. -/
def reTryAt (re : RE) (bef aft : List Char) : Option (List Char × List Char × Caps) :=
  reM ((aft.length + 2) * (reSize re + 2)) re bef aft [] fun b2 a2 c2 => some (b2, a2, c2)

/-- Is there a match at this or any later start position. -/
def reTestAux (re : RE) (bef : List Char) : List Char → Bool
  | [] => (reTryAt re bef []).isSome
  | c :: r => (reTryAt re bef (c :: r)).isSome || reTestAux re (c :: bef) r

/-- RegExp.prototype.test. -/
def reTest (re : RE) (s : JStr) : Bool := reTestAux re [] s

/-- Captures of the leftmost match, for String.prototype.match. -/
def reFirstAux (re : RE) (bef : List Char) : List Char → Option Caps
  | [] => (reTryAt re bef []).map fun r => r.2.2
  | c :: r =>
    match reTryAt re bef (c :: r) with
    | some m => some m.2.2
    | none => reFirstAux re (c :: bef) r

/-- String.prototype.match without the g flag: leftmost match captures. -/
def reFirst (re : RE) (s : JStr) : Option Caps := reFirstAux re [] s

/-- Global replace: scan left to right, replacing non-overlapping
matches, resuming after each match end (advancing one character past an
empty match, as JS does). -/
def reReplAux (re : RE) (subst : Caps → JStr) : Nat → List Char → List Char → JStr
  | 0, _, aft => aft
  | f + 1, bef, aft =>
    match reTryAt re bef aft with
    | some (b2, a2, cp) =>
      if a2.length = aft.length then
        subst cp ++
          match aft with
          | [] => []
          | c :: r => c :: reReplAux re subst f (c :: bef) r
      else subst cp ++ reReplAux re subst f b2 a2
    | none =>
      match aft with
      | [] => []
      | c :: r => c :: reReplAux re subst f (c :: bef) r

/-- String.prototype.replace with a g-flagged regex. -/
def reReplaceAll (re : RE) (subst : Caps → JStr) (s : JStr) : JStr :=
  reReplAux re subst (s.length + 1) [] s

/-- String.prototype.matchAll: captures of every non-overlapping match,
left to right. -/
def reMatchAllAux (re : RE) : Nat → List Char → List Char → List Caps
  | 0, _, _ => []
  | f + 1, bef, aft =>
    match reTryAt re bef aft with
    | some (b2, a2, cp) =>
      if a2.length = aft.length then
        cp ::
          match aft with
          | [] => []
          | c :: r => reMatchAllAux re f (c :: bef) r
      else cp :: reMatchAllAux re f b2 a2
    | none =>
      match aft with
      | [] => []
      | c :: r => reMatchAllAux re f (c :: bef) r

/-- All matches of a g-flagged regex. -/
def reMatchAll (re : RE) (s : JStr) : List Caps :=
  reMatchAllAux re (s.length + 1) [] s

/-! ### The regex literals of the source, as RE terms -/

/-- A literal character. -/
def rch (c : Char) : RE := .cls fun x => x = c

/-- A literal character, case-insensitively (ASCII, for the i flag). -/
def rchi (c : Char) : RE :=
  .cls fun x => x = c || (jsToLower [x]) = (jsToLower [c])

/-- A literal string. -/
def reLit (s : JStr) : RE := (s.map rch).foldr .seq .eps

/-- A literal string, case-insensitively. -/
def reLiti (s : JStr) : RE := (s.map rchi).foldr .seq .eps

/-- One or more: greedy plus. -/
def rplus (a : RE) : RE := .seq a (.star a false)

/-- One or more: lazy plus. -/
def rplusLazy (a : RE) : RE := .seq a (.star a true)

/-- The dot of a JS regex without the s flag: anything but a line
terminator. -/
def rdot : RE :=
  .cls fun c => !(c = '\n' || c = '\r' || c = Char.ofNat 8232 || c = Char.ofNat 8233)

/-- The class [backslash-s backslash-S]: any character. -/
def rany : RE := .cls fun _ => true

/-- The class backslash-s. -/
def rws : RE := .cls jsWsChar

/-- Repeat a pattern a fixed number of times. -/
def reN : Nat → RE → RE
  | 0, _ => .eps
  | n + 1, a => .seq a (reN n a)

/-- Single or double quote. -/
def isQq (c : Char) : Bool := c = squote || c = dquote

/-- Pattern 1 of tryFixJson: single-quoted literals,
(?<! backslash ) quote ( [^ quote backslash ]* (?: backslash any [^ quote backslash ]* )* ) quote, g-flagged. -/
def singleQuoteRe : RE :=
  .seq (.nlb fun c => c = bslash)
    (.seq (rch squote)
      (.seq
        (.grp 1
          (.seq (.star (.cls fun c => !(c = squote || c = bslash)) false)
            (.star
              (.seq (rch bslash)
                (.seq rdot (.star (.cls fun c => !(c = squote || c = bslash)) false)))
              false)))
        (rch squote)))

/-- Replacement of pattern 1: double-quote the captured body. -/
def substDQuote (cp : Caps) : JStr := dquote :: capGet cp 1 ++ [dquote]

/-- Pattern 2 of tryFixJson: a comma before optional whitespace and a
closing brace or bracket, g-flagged. -/
def trailingCommaRe : RE :=
  .seq (rch ',')
    (.grp 1 (.seq (.star rws false) (.cls fun c => c = rbrace || c = ']')))

/-- Replacement of pattern 2: keep only the capture. -/
def substCap1 (cp : Caps) : JStr := capGet cp 1

/-- Identifier head of pattern 3. -/
def identStart (c : Char) : Bool :=
  (97 ≤ c.toNat && c.toNat ≤ 122) || (65 ≤ c.toNat && c.toNat ≤ 90) || c = '_'

/-- Identifier tail of pattern 3. -/
def identChar (c : Char) : Bool := identStart c || isDigitCh c

/-- Pattern 3 of tryFixJson: an unquoted identifier key after an opening
brace or comma and before a colon, g-flagged. -/
def unquotedKeyRe : RE :=
  .seq (.grp 1 (.seq (.cls fun c => c = lbrace || c = ',') (.star rws false)))
    (.seq (.grp 2 (.seq (.cls identStart) (.star (.cls identChar) false)))
      (.grp 3 (.seq (.star rws false) (rch ':'))))

/-- Replacement of pattern 3: quote the identifier between its context
captures. -/
def substQuoteKey (cp : Caps) : JStr :=
  capGet cp 1 ++ dquote :: capGet cp 2 ++ dquote :: capGet cp 3

/-- Pattern 5 of tryFixJson: line comments to end of line (multiline
dollar) or lazy block comments, gm-flagged. -/
def commentRe : RE :=
  .alt (.seq (reLit ['/', '/']) (.seq (.star rdot false) .eolm))
    (.seq (reLit ['/', '*']) (.seq (.star rany true) (reLit ['*', '/'])))

/-- Replacement of pattern 5: delete the match. -/
def substEmpty (_ : Caps) : JStr := []

/-! ### tryFixJson and formatJson -/

/-- Result record of tryFixJson. -/
structure FixResult where
  success : Bool
  result : Option JStr
  error : Option JStr
  fixes : List JStr

/-- Fix description of pattern 1. -/
def msgQuotes : JStr := "Replaced single quotes with double quotes".data

/-- Fix description of pattern 2. -/
def msgTrailing : JStr := "Removed trailing commas".data

/-- Fix description of pattern 3. -/
def msgKeys : JStr := "Added quotes to unquoted keys".data

/-- Fix description of pattern 4, brace half. -/
def msgBraces (n : Nat) : JStr :=
  "Added ".data ++ natDigits n ++ " missing closing brace(s)".data

/-- Fix description of pattern 4, bracket half. -/
def msgBrackets (n : Nat) : JStr :=
  "Added ".data ++ natDigits n ++ " missing closing bracket(s)".data

/-- Fix description of pattern 5. -/
def msgComments : JStr := "Removed comments".data

/-- The parse failure message surfaced in envelopes.  The JS code reports
the underlying SyntaxError message; its text is modelled by a fixed
diagnostic since no claim depends on the wording. -/
def parseErrMsg : JStr := "Invalid JSON".data

/-- One conditional rewrite of tryFixJson: if the pattern matches the
current text, replace globally and record the fix description. -/
def tryFixStep (re : RE) (subst : Caps → JStr) (msg : JStr)
    (st : JStr × List JStr) : JStr × List JStr :=
  if reTest re st.1 then (reReplaceAll re subst st.1, st.2 ++ [msg]) else st

/-- The rewritten text and fired fixes of tryFixJson before the final
parse: patterns 1-3 in order, then bracket balancing from global
character counts (braces appended before brackets, both counted on the
text after step 3), then comment stripping. -/
def tryFixRewrite (s : JStr) : JStr × List JStr :=
  let st1 := tryFixStep singleQuoteRe substDQuote msgQuotes (s, [])
  let st2 := tryFixStep trailingCommaRe substCap1 msgTrailing st1
  let st3 := tryFixStep unquotedKeyRe substQuoteKey msgKeys st2
  let ob := countChar lbrace st3.1
  let cb := countChar rbrace st3.1
  let obk := countChar '[' st3.1
  let cbk := countChar ']' st3.1
  let st4a :=
    if cb < ob then (st3.1 ++ List.replicate (ob - cb) rbrace, st3.2 ++ [msgBraces (ob - cb)])
    else st3
  let st4 :=
    if cbk < obk then (st4a.1 ++ List.replicate (obk - cbk) ']', st4a.2 ++ [msgBrackets (obk - cbk)])
    else st4a
  tryFixStep commentRe substEmpty msgComments st4

/-- tryFixJson of src/lib/json-utils.ts: apply the rewrites, then parse
strictly; success re-serializes with a 2-space indent. -/
def tryFixJson (s : JStr) : FixResult :=
  let st := tryFixRewrite s
  match jsonParse st.1 with
  | some v => ⟨true, some (jsonStringify v 2), none, st.2⟩
  | none => ⟨false, none, some parseErrMsg, st.2⟩

/-- The plain success/result/error envelope. -/
structure EnvResult where
  success : Bool
  result : Option JStr
  error : Option JStr

/-- formatJson of src/lib/json-utils.ts: strict parse, then re-serialize
with a 4-space indent. -/
def formatJson (s : JStr) : EnvResult :=
  match jsonParse s with
  | some v => ⟨true, some (jsonStringify v 4), none⟩
  | none => ⟨false, none, some parseErrMsg⟩

/-- compressJson of src/lib/json-utils.ts: strict parse, then compact
re-serialization, with byte sizes of both texts. -/
structure CompressResult where
  success : Bool
  result : Option JStr
  error : Option JStr
  originalSize : Option Nat
  compressedSize : Option Nat

/-- compressJson of src/lib/json-utils.ts. -/
def compressJson (s : JStr) : CompressResult :=
  match jsonParse s with
  | some v =>
    let compressed := jsonStringify v 0
    ⟨true, some compressed, none, some (utf8Size s), some (utf8Size compressed)⟩
  | none => ⟨false, none, some parseErrMsg, none, none⟩

/-- escapeString of src/lib/json-utils.ts: JSON.stringify the string and
strip the outer quotes (slice(1, -1)). -/
def escapeString (s : JStr) : EnvResult :=
  let escaped := quoteStr s
  ⟨true, some ((escaped.drop 1).take (escaped.length - 2)), none⟩

/-- Literal (non-regex-special) global substring replacement of a
nonempty pattern p0 :: p1 (fuel-guided), for the lenient fallback of
unescapeString. -/
def replaceLitF (p0 : Char) (p1 rep : JStr) : Nat → JStr → JStr
  | 0, s => s
  | _, [] => []
  | f + 1, c :: cs =>
    if (p0 :: p1).isPrefixOf (c :: cs) then
      rep ++ replaceLitF p0 p1 rep f (cs.drop p1.length)
    else c :: replaceLitF p0 p1 rep f cs

/-- Literal global substring replacement of a nonempty pattern. -/
def replaceLit (p0 : Char) (p1 rep : JStr) (s : JStr) : JStr :=
  replaceLitF p0 p1 rep (s.length + 1) s

/-- unescapeString of src/lib/json-utils.ts: JSON.parse the quoted text;
on failure fall back to a lenient substitution table (which always
succeeds, so this operation never fails). -/
def unescapeString (s : JStr) : EnvResult :=
  match jsonParse (dquote :: s ++ [dquote]) with
  | some (Json.jstr r) => ⟨true, some r, none⟩
  | some _ => ⟨true, none, none⟩
  | none =>
    let r :=
      replaceLit bslash [squote] [squote] <|
      replaceLit bslash [bslash] [bslash] <|
      replaceLit bslash [dquote] [dquote] <|
      replaceLit bslash ['t'] ['\t'] <|
      replaceLit bslash ['r'] ['\r'] <|
      replaceLit bslash ['n'] ['\n'] s
    ⟨true, some r, none⟩

/-! ### External library parameters

The code under src/ calls js-yaml, xml-js, json2csv, atob and
decodeURIComponent.  These are external dependencies, not code of this
repository; each is taken as a parameter of the functions that use it
(a throwing call is an error value).  Claims about the envelope shape
hold for every behavior of these parameters; claims that exercise the
XML pipeline use the explicit model defined later. -/

structure Libs where
  /-- js-yaml load; ok none models the undefined that an empty or
  comment-only YAML document yields. -/
  yamlLoad : JStr → Except JStr (Option Json)
  yamlDump : Json → Except JStr JStr
  xml2jsonC : JStr → Except JStr JStr
  xml2jsonNC : JStr → Except JStr JStr
  json2xmlC : Json → Except JStr JStr
  json2xmlNC : Json → Except JStr JStr
  csvParse : List Json → Except JStr JStr
  atobFn : JStr → Except JStr JStr
  decodeURI : JStr → Except JStr JStr
  windowDefined : Bool

/-! ### extractFromCurl -/

/-- Not a whitespace, single quote, or double quote (the URL body class). -/
def urlBodyCh (c : Char) : Bool := !(jsWsChar c || c = squote || c = dquote)

/-- First URL pattern of extractFromCurl (i-flagged): curl, then any
number of flag-value pairs, then an optionally quoted http(s) URL,
capturing the URL. -/
def curlUrlRe1 : RE :=
  .seq (reLiti ['c', 'u', 'r', 'l'])
    (.seq (rplus rws)
      (.seq
        (.star
          (.seq
            (.alt (.seq (rch '-') (rplus (.cls fun c =>
                (97 ≤ c.toNat && c.toNat ≤ 122) || (65 ≤ c.toNat && c.toNat ≤ 90))))
              (.seq (reLit ['-', '-'])
                (rplus (.cls fun c =>
                  (97 ≤ c.toNat && c.toNat ≤ 122) || (65 ≤ c.toNat && c.toNat ≤ 90) ||
                    c = '-'))))
            (.seq (rplus rws)
              (.seq
                (.alt (.seq (rch squote) (.seq (.star (.cls fun c => c ≠ squote) false) (rch squote)))
                  (.alt (.seq (rch dquote) (.seq (.star (.cls fun c => c ≠ dquote) false) (rch dquote)))
                    (rplus (.cls fun c => !jsWsChar c))))
                (rplus rws))))
          false)
        (.seq (.opt (.cls isQq) false)
          (.seq
            (.grp 1
              (.seq (reLiti ['h', 't', 't', 'p'])
                (.seq (.opt (rchi 's') false)
                  (.seq (reLit [':', '/', '/']) (rplus (.cls urlBodyCh))))))
            (.opt (.cls isQq) false)))))

/-- Fallback URL pattern of extractFromCurl (case-sensitive): an
optionally quoted http(s) URL anywhere. -/
def curlUrlRe2 : RE :=
  .seq (.opt (.cls isQq) false)
    (.seq
      (.grp 1
        (.seq (reLit ['h', 't', 't', 'p'])
          (.seq (.opt (rch 's') false)
            (.seq (reLit [':', '/', '/']) (rplus (.cls urlBodyCh))))))
      (.opt (.cls isQq) false))

/-- Header pattern of extractFromCurl (g-flagged): -H, whitespace, a
quote, the captured non-quote body, a quote. -/
def headerRe : RE :=
  .seq (reLit ['-', 'H'])
    (.seq (rplus rws)
      (.seq (.cls isQq)
        (.seq (.grp 1 (rplus (.cls fun c => !isQq c))) (.cls isQq))))

/-- The -d / --data / --data-raw / --data-binary flag alternative. -/
def dataFlagRe : RE :=
  .alt (reLit ['-', 'd'])
    (.seq (reLit ['-', '-', 'd', 'a', 't', 'a'])
      (.opt (.alt (reLit ['-', 'r', 'a', 'w']) (reLit ['-', 'b', 'i', 'n', 'a', 'r', 'y'])) false))

/-- First data pattern of extractFromCurl: the flag, whitespace, a
quote, a lazily captured nonempty body, a quote.  The lazy body stops at
the first quote character of either kind. -/
def dataRe1 : RE :=
  .seq dataFlagRe
    (.seq (rplus rws)
      (.seq (.cls isQq) (.seq (.grp 1 (rplusLazy rany)) (.cls isQq))))

/-- Fallback data pattern of extractFromCurl: the flag, whitespace, a
captured unquoted token. -/
def dataRe2 : RE :=
  .seq dataFlagRe (.seq (rplus rws) (.grp 1 (rplus (.cls fun c => !jsWsChar c))))

/-- Result record of extractFromCurl. -/
structure CurlResult where
  success : Bool
  result : Option JStr
  url : Option JStr
  headers : Option (List (JStr × JStr))
  error : Option JStr

/-- Join pieces with a separator character, modelling Array.join. -/
def joinChar (sep : Char) : List JStr → JStr
  | [] => []
  | [p] => p
  | p :: q :: r => p ++ sep :: joinChar sep (q :: r)

/-- Build the headers record of extractFromCurl: each -H capture is
split at colons; a nonempty trimmed key maps to the trimmed re-joined
value. -/
def buildHeaders (l : List Caps) : List (JStr × JStr) :=
  jsRecord <| l.filterMap fun cp =>
    match splitOnChar ':' (capGet cp 1) with
    | [] => none
    | key :: valueParts =>
      if jsTrim key ≠ [] then some (jsTrim key, jsTrim (joinChar ':' valueParts))
      else none

/-- Error message of extractFromCurl on a non-curl input. -/
def msgNotCurl : JStr := "Not a valid cURL command".data

/-- Error message of extractFromCurl with no data argument. -/
def msgNoData : JStr := "No data/body found in cURL command".data

/-- The URL extraction of extractFromCurl: the first pattern, then the
fallback. -/
def curlUrl (t : JStr) : Option JStr :=
  match reFirst curlUrlRe1 t with
  | some cp => some (capGet cp 1)
  | none =>
    match reFirst curlUrlRe2 t with
    | some cp => some (capGet cp 1)
    | none => none

/-- The data extraction of extractFromCurl: the quoted pattern, then the
unquoted fallback. -/
def curlData (t : JStr) : Option JStr :=
  match reFirst dataRe1 t with
  | some cp => some (capGet cp 1)
  | none =>
    match reFirst dataRe2 t with
    | some cp => some (capGet cp 1)
    | none => none

/-- extractFromCurl of src/lib/json-utils.ts.  The trailing catch of the
source is unreachable in the model (no step throws), so it has no
corresponding branch. -/
def extractFromCurl (s : JStr) : CurlResult :=
  let trimmed := jsTrim s
  if ¬ ("curl".data.isPrefixOf (jsToLower trimmed)) then
    ⟨false, none, none, none, some msgNotCurl⟩
  else
    let url := curlUrl trimmed
    let headers := buildHeaders (reMatchAll headerRe trimmed)
    match curlData trimmed with
    | some dataStr =>
      match jsonParse dataStr with
      | some v => ⟨true, some (jsonStringify v 2), url, some headers, none⟩
      | none =>
        let fx := tryFixJson dataStr
        if fx.success then ⟨true, fx.result, url, some headers, none⟩
        else ⟨true, some dataStr, url, some headers, none⟩
    | none => ⟨false, none, url, some headers, some msgNoData⟩

/-! ### decodeBase64Json and smartExtract -/

/-- Base64 alphabet character. -/
def b64Ch (c : Char) : Bool :=
  ('A' ≤ c && c ≤ 'Z') || ('a' ≤ c && c ≤ 'z') || isDigitCh c || c = '+' || c = '/'

/-- The anchored Base64 shape test of decodeBase64Json. -/
def base64FullRe : RE :=
  .seq .bos (.seq (rplus (.cls b64Ch)) (.seq (.star (rch '=') false) .eos))

/-- The anchored length-20 Base64 shape test of smartExtract. -/
def base64TwentyRe : RE :=
  .seq .bos
    (.seq (reN 20 (.cls b64Ch))
      (.seq (.star (.cls b64Ch) false) (.seq (.star (rch '=') false) .eos)))

/-- Error message of decodeBase64Json on a non-Base64 input. -/
def msgNotB64 : JStr := "Not a valid Base64 string".data

/-- Fallback error message of decodeBase64Json. -/
def msgB64Failed : JStr := "Failed to decode Base64".data

/-- The data-URI cleanup of decodeBase64Json: split(',').pop() with its
falsy-empty fallback to the whole trimmed text. -/
def b64Cleaned (s : JStr) : JStr :=
  let cleaned0 := jsTrim s
  if hasSubstr [','] cleaned0 then
    let lastPart := ((splitOnChar ',' cleaned0).getLast?).getD []
    if lastPart = [] then cleaned0 else lastPart
  else cleaned0

/-- decodeBase64Json of src/lib/json-utils.ts: strip an optional data
URI prefix, test the Base64 shape with whitespace removed, decode, then
parse, repair, or return the decoded text. -/
def decodeBase64Json (L : Libs) (s : JStr) : EnvResult :=
  let cleaned := b64Cleaned s
  if ¬ reTest base64FullRe (cleaned.filter fun c => !jsWsChar c) then
    ⟨false, none, some msgNotB64⟩
  else
    match L.atobFn cleaned with
    | .error _ => ⟨false, none, some msgB64Failed⟩
    | .ok decoded =>
      match jsonParse decoded with
      | some v => ⟨true, some (jsonStringify v 2), none⟩
      | none =>
        let fx := tryFixJson decoded
        if fx.success then ⟨true, fx.result, none⟩
        else ⟨true, some decoded, none⟩

/-- Result record of smartExtract. -/
structure ExtractResult where
  success : Bool
  result : Option JStr
  detectedType : Option JStr
  error : Option JStr

/-- Index of the first opening brace or bracket, for the log-line step. -/
def findJsonStart (s : JStr) : Option Nat :=
  match s with
  | [] => none
  | c :: cs =>
    if c = lbrace || c = '[' then some 0
    else (findJsonStart cs).map (· + 1)

/-- Error message of smartExtract when every strategy fails. -/
def msgNoDetect : JStr := "Could not detect or parse content".data

/-- Step 1 of smartExtract: the cURL strategy, applicable when the
trimmed lowered text starts with curl and the extraction succeeds with a
truthy (nonempty) result. -/
def smartCurlStep (t : JStr) : Option ExtractResult :=
  if "curl".data.isPrefixOf (jsToLower t) then
    let cr := extractFromCurl t
    if cr.success && (cr.result.getD []) ≠ [] then
      some ⟨true, cr.result, some ("cURL".data), none⟩
    else none
  else none

/-- Step 2 of smartExtract: the Base64 strategy, applicable when the
whitespace-stripped text has the length-20 Base64 shape and decoding
succeeds. -/
def smartB64Step (L : Libs) (t : JStr) : Option ExtractResult :=
  if reTest base64TwentyRe (t.filter fun c => !jsWsChar c) then
    let br := decodeBase64Json L t
    if br.success then some ⟨true, br.result, some ("Base64".data), none⟩
    else none
  else none

/-- Step 3 of smartExtract: the URL-encoded strategy, applicable when a
percent-encoded brace or bracket occurs, decoding succeeds, and the
decoded text parses. -/
def smartUriStep (L : Libs) (t : JStr) : Option ExtractResult :=
  if hasSubstr ("%7B".data) t || hasSubstr ("%5B".data) t then
    match L.decodeURI t with
    | .ok decoded =>
      match jsonParse decoded with
      | some v => some ⟨true, some (jsonStringify v 2), some ("URL-encoded".data), none⟩
      | none => none
    | .error _ => none
  else none

/-- Step 4 of smartExtract: the log-line strategy, applicable when the
first brace or bracket is past position zero and the suffix parses or
repairs. -/
def smartLogStep (t : JStr) : Option ExtractResult :=
  match findJsonStart t with
  | some idx =>
    if idx > 0 then
      let potential := t.drop idx
      match jsonParse potential with
      | some v => some ⟨true, some (jsonStringify v 2), some ("Log line".data), none⟩
      | none =>
        let fx := tryFixJson potential
        if fx.success then some ⟨true, fx.result, some ("Log line (fixed)".data), none⟩
        else none
    else none
  | none => none

/-- smartExtract of src/lib/json-utils.ts: cURL, Base64, URL-encoded,
log line, direct parse, repair, in that order; the first step that
produces a result wins. -/
def smartExtract (L : Libs) (content : JStr) : ExtractResult :=
  let trimmed := jsTrim content
  match smartCurlStep trimmed with
  | some r => r
  | none =>
    match smartB64Step L trimmed with
    | some r => r
    | none =>
      match smartUriStep L trimmed with
      | some r => r
      | none =>
        match smartLogStep trimmed with
        | some r => r
        | none =>
          match jsonParse trimmed with
          | some v => ⟨true, some (jsonStringify v 2), some ("JSON".data), none⟩
          | none =>
            let fx := tryFixJson trimmed
            if fx.success then ⟨true, fx.result, some ("JSON (fixed)".data), none⟩
            else ⟨false, none, none, some msgNoDetect⟩

/-! ### getJsonStats -/

mutual

/-- Node count and maximum depth of the pre-order traversal of
getJsonStats, entered at a given depth: every node (leaf or container)
counts once; depth is the largest depth visited. -/
def statsV : Json → Nat → Nat × Nat
  | Json.jarr xs, d =>
    let p := statsA xs (d + 1)
    (p.1 + 1, max d p.2)
  | Json.jobj ms, d =>
    let p := statsM ms (d + 1)
    (p.1 + 1, max d p.2)
  | _, d => (1, d)

/-- Traversal of the elements of an array. -/
def statsA : List Json → Nat → Nat × Nat
  | [], _ => (0, 0)
  | x :: xs, d =>
    let a := statsV x d
    let b := statsA xs d
    (a.1 + b.1, max a.2 b.2)

/-- Traversal of the values of an object. -/
def statsM : List (JStr × Json) → Nat → Nat × Nat
  | [], _ => (0, 0)
  | (_, v) :: ms, d =>
    let a := statsV v d
    let b := statsM ms d
    (a.1 + b.1, max a.2 b.2)

end

/-- Result record of getJsonStats. -/
structure StatsResult where
  nodeCount : Nat
  depth : Nat
  size : Nat
deriving DecidableEq, Repr

/-- getJsonStats of src/lib/json-utils.ts: parse, traverse, and report
node count, maximum depth (root at depth 0) and UTF-8 byte size; null on
parse failure. -/
def getJsonStats (s : JStr) : Option StatsResult :=
  (jsonParse s).map fun v =>
    let p := statsV v 0
    ⟨p.1, p.2, utf8Size s⟩

/-! ### getJsonPathAtPosition -/

/-- One stack frame of the path scanner: object or array, the key last
bound at a colon, and the running array index. -/
structure PFrame where
  isObj : Bool
  key : Option JStr
  index : Nat

/-- Scanner state: frames (top first), the characters accumulated inside
string literals, the in-string and escaped flags, and the (unused for
the result, but mirrored) depth counter. -/
structure PState where
  stack : List PFrame
  currentKey : JStr
  inString : Bool
  escaped : Bool
  depth : Int

/-- One character step of the getJsonPathAtPosition scanner. -/
def pathStep (st : PState) (c : Char) : PState :=
  if st.escaped then { st with escaped := false }
  else if c = bslash then { st with escaped := true }
  else if c = dquote then { st with inString := !st.inString }
  else if st.inString then { st with currentKey := st.currentKey ++ [c] }
  else if c = lbrace then
    { st with stack := ⟨true, none, 0⟩ :: st.stack, depth := st.depth + 1 }
  else if c = '[' then
    { st with stack := ⟨false, none, 0⟩ :: st.stack, depth := st.depth + 1 }
  else if c = rbrace || c = ']' then
    { st with stack := st.stack.tail, depth := st.depth - 1 }
  else if c = ':' then
    match st.stack with
    | top :: rest =>
      if top.isObj then
        { st with stack := { top with key := some st.currentKey } :: rest, currentKey := [] }
      else st
    | [] => st
  else if c = ',' then
    match st.stack with
    | top :: rest =>
      if top.isObj then { st with currentKey := [] }
      else { st with stack := { top with index := top.index + 1 } :: rest, currentKey := [] }
    | [] => st
  else st

/-- Render the path entries after the dollar: .key for an object frame
with a truthy key, [n] for an array frame, nothing for an object frame
whose key is unset or empty. -/
def renderFrames : List PFrame → JStr
  | [] => []
  | fr :: rest =>
    (if fr.isObj then
      match fr.key with
      | some k => if k ≠ [] then '.' :: k else []
      | none => []
    else '[' :: natDigits fr.index ++ [']']) ++ renderFrames rest

/-- getJsonPathAtPosition of src/lib/json-utils.ts: scan the first
min(position, length) characters (none when the position is negative)
and print the open-container stack as a dollar-rooted path. -/
def getJsonPathAtPosition (s : JStr) (pos : Int) : JStr :=
  let k := (min pos (s.length : Int)).toNat
  let st := (s.take k).foldl pathStep ⟨[], [], false, false, 0⟩
  '$' :: renderFrames st.stack.reverse

/-! ### Number() and the CSV converter -/

/-- Model of the JS Number() conversion on strings, as far as the code
exercises it: trimmed empty is 0, an optional sign, then a decimal
numeral with optional fraction and exponent.  none models NaN.  (The
Infinity and hex/octal/binary literal forms convert to none here; cells
holding them therefore stay strings in the model.) -/
def jsNumber (s : JStr) : Option JNum :=
  let t := jsTrim s
  if t = [] then some jnumZero
  else
    let (neg, t1) : Bool × JStr :=
      match t with
      | c :: cs => if c = '-' then (true, cs) else if c = '+' then (false, cs) else (false, t)
      | [] => (false, t)
    let (intDs, r1) := takeDigits t1
    let (fracDs, r2) : JStr × JStr :=
      match r1 with
      | '.' :: r => takeDigits r
      | _ => ([], r1)
    if intDs = [] ∧ fracDs = [] then none
    else
      let expPart : Option (Int × JStr) :=
        match r2 with
        | c :: r =>
          if c = 'e' || c = 'E' then
            let (esign, r3) : Bool × JStr :=
              match r with
              | '-' :: t2 => (true, t2)
              | '+' :: t2 => (false, t2)
              | _ => (false, r)
            match takeDigits r3 with
            | ([], _) => none
            | (eds, r4) =>
              some ((if esign then -(digitsNat eds : Int) else (digitsNat eds : Int)), r4)
          else some (0, r2)
        | [] => some (0, r2)
      match expPart with
      | none => none
      | some (e, rest) =>
        if rest ≠ [] then none
        else some (mkJNum neg (digitsNat (intDs ++ fracDs)) (e - fracDs.length))

/-- The JS replace of a leading and a trailing double quote used on CSV
cells: one leading quote and one remaining trailing quote are removed. -/
def stripQuotes (s : JStr) : JStr :=
  let s1 := if s.head? = some dquote then s.tail else s
  if s1 ≠ [] ∧ s1.getLast? = some dquote then s1.dropLast else s1

/-- Cell coercion of csvToJson: literal true/false become booleans, a
cell Number() accepts (other than the empty cell) becomes a number, and
anything else stays a string. -/
def csvCell (v : JStr) : Json :=
  if v = "true".data then Json.jbool true
  else if v = "false".data then Json.jbool false
  else
    match jsNumber v with
    | some n => if v ≠ [] then Json.jnum n else Json.jstr v
    | none => Json.jstr v

/-- Header names of csvToJson: the first line split at commas, each
trimmed and quote-stripped. -/
def csvHeaders (line : JStr) : List JStr :=
  (splitOnChar ',' line).map fun h => stripQuotes (jsTrim h)

/-- One row object of csvToJson: for each header in order, the
corresponding cell (the empty string beyond the row's cells), coerced. -/
def csvRow (headers : List JStr) (line : JStr) : Json :=
  let values := (splitOnChar ',' line).map fun v => stripQuotes (jsTrim v)
  mkObj (headers.enum.map fun p => (p.2, csvCell (values.getD p.1 [])))

/-- The row objects of csvToJson. -/
def csvRows (s : JStr) : List Json :=
  let lines := splitOnChar '\n' (jsTrim s)
  (lines.drop 1).map (csvRow (csvHeaders (lines.headD [])))

/-- Error message of csvToJson outside the client. -/
def msgClientOnly : JStr := "This feature is only available on the client side".data

/-- Error message of csvToJson without a data row. -/
def msgCsvFormat : JStr := "CSV data format is incorrect".data

/-- Generic conversion failure message. -/
def msgConvFailed : JStr := "Conversion failed".data

/-- csvToJson of src/lib/json-utils.ts: client-only; needs a header line
and at least one data row; naive comma split with cell coercion. -/
def csvToJson (L : Libs) (s : JStr) : EnvResult :=
  if ¬ L.windowDefined then ⟨false, none, some msgClientOnly⟩
  else
    let lines := splitOnChar '\n' (jsTrim s)
    if lines.length < 2 then ⟨false, none, some msgCsvFormat⟩
    else ⟨true, some (jsonStringify (Json.jarr (csvRows s)) 4), none⟩

/-! ### The YAML and CSV wrappers -/

/-- yamlToJson of src/lib/json-utils.ts.  When the loader yields no
value (undefined), JSON.stringify returns undefined as well, and the
code reports success with an absent result. -/
def yamlToJson (L : Libs) (s : JStr) : EnvResult :=
  match L.yamlLoad s with
  | .ok (some v) => ⟨true, some (jsonStringify v 4), none⟩
  | .ok none => ⟨true, none, none⟩
  | .error e => ⟨false, none, some e⟩

/-- jsonToYaml of src/lib/json-utils.ts. -/
def jsonToYaml (L : Libs) (s : JStr) : EnvResult :=
  match jsonParse s with
  | none => ⟨false, none, some msgConvFailed⟩
  | some v =>
    match L.yamlDump v with
    | .ok y => ⟨true, some y, none⟩
    | .error e => ⟨false, none, some e⟩

/-- JS expr || msg on an optional error string: the message replaces an
absent or empty (falsy) error. -/
def orMsg (e : Option JStr) (m : JStr) : JStr :=
  match e with
  | some s => if s = [] then m else s
  | none => m

/-- Error message of formatYaml on an unloadable document. -/
def msgInvalidYaml : JStr := "Invalid YAML".data

/-- Error message of formatYaml when re-dumping fails. -/
def msgFormatYamlFailed : JStr := "Failed to format YAML".data

/-- formatYaml of src/lib/json-utils.ts: YAML to JSON and back (the
falsy checks of the source treat a missing or empty result as failure). -/
def formatYaml (L : Libs) (s : JStr) : EnvResult :=
  let jr := yamlToJson L s
  if ¬ (jr.success && (jr.result.getD []) ≠ []) then
    ⟨false, none, some (orMsg jr.error msgInvalidYaml)⟩
  else
    let yr := jsonToYaml L (jr.result.getD [])
    if ¬ (yr.success && (yr.result.getD []) ≠ []) then
      ⟨false, none, some (orMsg yr.error msgFormatYamlFailed)⟩
    else ⟨true, yr.result, none⟩

/-- Error message of jsonToCsv on an empty array. -/
def msgEmptyArr : JStr := "JSON array is empty".data

/-- jsonToCsv of src/lib/json-utils.ts: parse, wrap a non-array in a
singleton, reject the empty array, delegate to the json2csv parser. -/
def jsonToCsv (L : Libs) (s : JStr) : EnvResult :=
  match jsonParse s with
  | none => ⟨false, none, some msgConvFailed⟩
  | some v =>
    let arrayData := match v with | Json.jarr xs => xs | _ => [v]
    if arrayData.isEmpty then ⟨false, none, some msgEmptyArr⟩
    else
      match L.csvParse arrayData with
      | .ok csv => ⟨true, some csv, none⟩
      | .error e => ⟨false, none, some e⟩

/-! ### The XML wrappers -/

mutual

/-- Model of the JS String() conversion on a JSON value (used for the
primitive wrap of jsonToXml and by the XML printer model): numbers print
in plain decimal, arrays join their members with commas (null printing
empty, as Array.prototype.join does), objects print the object tag. -/
def jsToString : Json → JStr
  | Json.jnull => "null".data
  | Json.jbool true => "true".data
  | Json.jbool false => "false".data
  | Json.jnum n => jnumToStr n
  | Json.jstr s => s
  | Json.jarr xs => joinChar ',' (jsToStringList xs)
  | Json.jobj _ => "[object Object]".data

/-- Array.prototype.join member images: null and undefined join as
empty. -/
def jsToStringList : List Json → List JStr
  | [] => []
  | Json.jnull :: xs => [] :: jsToStringList xs
  | x :: xs => jsToString x :: jsToStringList xs

end

/-- The root key. -/
def rootKey : JStr := "root".data

/-- The item key. -/
def itemKey : JStr := "item".data

/-- The sentinel text key of the xml-js compact shape. -/
def xtextKey : JStr := "_text".data

/-- The sentinel attributes key. -/
def xattrKey : JStr := "_attributes".data

/-- The sentinel cdata key. -/
def xcdataKey : JStr := "_cdata".data

/-- The wrapping rule of jsonToXml: arrays become root/item, primitives
become root/_text of their String() image, objects are wrapped in root
unless already a single-root object. -/
def xmlWrap (data : Json) : Json :=
  match data with
  | Json.jarr _ => Json.jobj [(rootKey, Json.jobj [(itemKey, data)])]
  | Json.jobj mems =>
    let singleRoot : Bool := match mems with | [(k, _)] => k = rootKey | _ => false
    if singleRoot then data
    else Json.jobj [(rootKey, data)]
  | _ => Json.jobj [(rootKey, Json.jobj [(xtextKey, Json.jstr (jsToString data))])]

/-- jsonToXml of src/lib/json-utils.ts: parse, wrap, print through the
compact json2xml, trim. -/
def jsonToXml (L : Libs) (s : JStr) : EnvResult :=
  match jsonParse s with
  | none => ⟨false, none, some msgConvFailed⟩
  | some data =>
    match L.json2xmlC (xmlWrap data) with
    | .ok xml => ⟨true, some (jsTrim xml), none⟩
    | .error e => ⟨false, none, some e⟩

/-- Scalar resolution of normalizeXmlJson on a text value: literal
true/false become booleans, a nonempty text Number() accepts becomes a
number, anything else stays text. -/
def scalarize (t : JStr) : Json :=
  if t = "true".data then Json.jbool true
  else if t = "false".data then Json.jbool false
  else
    match jsNumber t with
    | some n => if t ≠ [] then Json.jnum n else Json.jstr t
    | none => Json.jstr t

/-- Is a key one of the xml-js sentinel keys normalizeXmlJson drops. -/
def xmlMeta (k : JStr) : Bool :=
  k = xtextKey || k = xattrKey || k = xcdataKey

mutual

/-- normalizeXmlJson of src/lib/json-utils.ts: an object holding only a
_text key collapses to its resolved scalar (a non-string _text value,
which compact xml-js never produces for a lone text, passes through
unchanged); otherwise the sentinel keys are dropped and the rest is
rebuilt recursively. -/
def normalizeXmlJson : Json → Json
  | Json.jnull => Json.jnull
  | Json.jbool b => Json.jbool b
  | Json.jnum n => Json.jnum n
  | Json.jstr s => Json.jstr s
  | Json.jarr xs => Json.jarr (normXmlList xs)
  | Json.jobj [(k, v)] =>
    if k = xtextKey then
      match v with
      | Json.jstr t => scalarize t
      | v2 => v2
    else mkObj (normXmlMems [(k, v)])
  | Json.jobj mems => mkObj (normXmlMems mems)

/-- normalizeXmlJson over array elements. -/
def normXmlList : List Json → List Json
  | [] => []
  | x :: xs => normalizeXmlJson x :: normXmlList xs

/-- normalizeXmlJson over object members, dropping sentinel keys. -/
def normXmlMems : List (JStr × Json) → List (JStr × Json)
  | [] => []
  | (k, v) :: t =>
    if xmlMeta k then normXmlMems t
    else (k, normalizeXmlJson v) :: normXmlMems t

end

/-- Error message of xmlToJson without angle brackets. -/
def msgXmlFormatErr : JStr := "XML format error: not a valid XML format".data

/-- Error message of xmlToJson when the converted text is not JSON-shaped. -/
def msgXmlNotJson : JStr := "XML conversion failed: result is not valid JSON".data

/-- Error message of xmlToJson when the converted text fails to parse. -/
def msgXmlInvalidJson : JStr := "XML conversion failed: Invalid JSON".data

/-- The friendlier root-node message of the xmlToJson catch. -/
def msgXmlRootErr : JStr :=
  "XML format error: text data exists outside root node, please ensure XML has only one root node".data

/-- The message the xmlToJson catch surfaces for a given thrown message. -/
def xmlCatchMsg (e : JStr) : JStr :=
  if hasSubstr ("Text data outside of root node".data) e then msgXmlRootErr
  else "XML conversion failed: ".data ++ e

/-- xmlToJson of src/lib/json-utils.ts: angle-bracket precheck, compact
xml2json, JSON-shape precheck, parse, normalize, then unwrap a single
root (and a root/item array) before serializing (4-space indent). -/
def xmlToJson (L : Libs) (s : JStr) : EnvResult :=
  let cleanedXml := jsTrim s
  if ¬ (hasSubstr ['<'] cleanedXml && hasSubstr ['>'] cleanedXml) then
    ⟨false, none, some msgXmlFormatErr⟩
  else
    match L.xml2jsonC cleanedXml with
    | .error e => ⟨false, none, some (xmlCatchMsg e)⟩
    | .ok result =>
      let trimmedResult := jsTrim result
      if ¬ (trimmedResult.head? = some lbrace || trimmedResult.head? = some '[') then
        ⟨false, none, some msgXmlNotJson⟩
      else
        match jsonParse result with
        | none => ⟨false, none, some msgXmlInvalidJson⟩
        | some jsonData =>
          let normalized := normalizeXmlJson jsonData
          match normalized with
          | Json.jobj [(k, rootContent)] =>
            if k = rootKey then
              match rootContent with
              | Json.jobj [(k2, item)] =>
                if k2 = itemKey then
                  match item with
                  | Json.jarr xs => ⟨true, some (jsonStringify (Json.jarr xs) 4), none⟩
                  | _ => ⟨true, some (jsonStringify rootContent 4), none⟩
                else ⟨true, some (jsonStringify rootContent 4), none⟩
              | _ => ⟨true, some (jsonStringify rootContent 4), none⟩
            else ⟨true, some (jsonStringify normalized 4), none⟩
          | _ => ⟨true, some (jsonStringify normalized 4), none⟩

/-- Error message of formatXml without angle brackets. -/
def msgInvalidXml : JStr := "Invalid XML format".data

/-- Error message of formatXml when the converted text fails to parse. -/
def msgXmlStructErr : JStr := "Failed to parse XML: Invalid XML structure".data

/-- formatXml of src/lib/json-utils.ts: angle-bracket precheck, then a
non-compact xml2json / json2xml round trip for re-indentation. -/
def formatXml (L : Libs) (s : JStr) : EnvResult :=
  let cleanedXml := jsTrim s
  if ¬ (hasSubstr ['<'] cleanedXml && hasSubstr ['>'] cleanedXml) then
    ⟨false, none, some msgInvalidXml⟩
  else
    match L.xml2jsonNC cleanedXml with
    | .error e => ⟨false, none, some e⟩
    | .ok jsonResult =>
      match jsonParse jsonResult with
      | none => ⟨false, none, some msgXmlStructErr⟩
      | some jsonData =>
        match L.json2xmlNC jsonData with
        | .ok formattedXml => ⟨true, some (jsTrim formattedXml), none⟩
        | .error e => ⟨false, none, some e⟩

/-! ### detectFormat and convertFormat -/

/-- The three notations. -/
inductive Fmt where
  | json
  | xml
  | yaml
deriving DecidableEq, Repr

/-- detectFormat of src/lib/json-utils.ts: XML by angle-bracket shape,
else YAML when the colon/indent hint holds, the loader accepts, and
strict JSON rejects, else JSON by strict parse, else null. -/
def detectFormat (L : Libs) (content : JStr) : Option Fmt :=
  if content = [] || jsTrim content = [] then none
  else
    let trimmed := jsTrim content
    if trimmed.head? = some '<' && hasSubstr ['>'] trimmed &&
        hasSubstr ['<', '/'] trimmed then some Fmt.xml
    else
      let yamlHit :=
        if hasSubstr [':'] trimmed &&
            (hasSubstr ['\n'] trimmed || hasSubstr [' ', ' '] trimmed) then
          match L.yamlLoad trimmed with
          | .ok _ => (jsonParse trimmed).isNone
          | .error _ => false
        else false
      if yamlHit then some Fmt.yaml
      else
        match jsonParse trimmed with
        | some _ => some Fmt.json
        | none => none

/-- Error message of convertToJson. -/
def msgUnrecognized : JStr := "Unrecognized content format".data

/-- convertToJson of src/lib/json-utils.ts: JSON (or unknown) passes
through when it parses; XML and YAML delegate. -/
def convertToJson (L : Libs) (content : JStr) (currentType : Option Fmt) : EnvResult :=
  match currentType with
  | none | some Fmt.json =>
    match jsonParse content with
    | some _ => ⟨true, some content, none⟩
    | none => ⟨false, none, some msgUnrecognized⟩
  | some Fmt.xml => xmlToJson L content
  | some Fmt.yaml => yamlToJson L content

/-- Error message of convertFormat when the pivot fails. -/
def msgUnableToJson : JStr := "Unable to convert to JSON".data

/-- convertFormat of src/lib/json-utils.ts: identity when source and
target notations coincide, else pivot through JSON text and re-emit. -/
def convertFormat (L : Libs) (content : JStr) (fromType : Option Fmt) (toType : Fmt) :
    EnvResult :=
  if fromType = some toType then ⟨true, some content, none⟩
  else
    let jr := convertToJson L content fromType
    if ¬ (jr.success && (jr.result.getD []) ≠ []) then
      ⟨false, none, some (orMsg jr.error msgUnableToJson)⟩
    else
      match toType with
      | Fmt.json => formatJson (jr.result.getD [])
      | Fmt.xml => jsonToXml L (jr.result.getD [])
      | Fmt.yaml => jsonToYaml L (jr.result.getD [])

/-! ### Model of xml-js (compact mode)

jsonToXml and xmlToJson delegate the XML text work to the external
xml-js package (compact mode, textKey _text).  The model below covers
the attribute-free fragment those calls exercise: the printer emits
elements named after keys, repeating an element per array member, with
the three standard text escapes; the parser is its inverse on such
documents and groups repeated sibling elements into arrays (a single
occurrence stays an object), joining multiple text nodes into an array
as compact xml-js does.  The spaces option (indentation between
elements) is not modelled: the whitespace text nodes it creates are
dropped by normalizeXmlJson either way, so every claim-relevant output
is unaffected. -/

/-- The three text escapes of xml-js. -/
def xmlEscape (s : JStr) : JStr :=
  s.foldr
    (fun c acc =>
      (if c = '&' then "&amp;".data
       else if c = '<' then "&lt;".data
       else if c = '>' then "&gt;".data
       else [c]) ++ acc)
    []

/-- Decode the five standard entities; anything else passes through. -/
def xmlUnescape : JStr → JStr
  | [] => []
  | c :: cs =>
    if c = '&' then
      match cs with
      | 'a' :: 'm' :: 'p' :: ';' :: r => '&' :: xmlUnescape r
      | 'l' :: 't' :: ';' :: r => '<' :: xmlUnescape r
      | 'g' :: 't' :: ';' :: r => '>' :: xmlUnescape r
      | 'q' :: 'u' :: 'o' :: 't' :: ';' :: r => dquote :: xmlUnescape r
      | 'a' :: 'p' :: 'o' :: 's' :: ';' :: r => squote :: xmlUnescape r
      | r => '&' :: xmlUnescape r
    else c :: xmlUnescape cs

/-- An opening tag. -/
def openTag (name : JStr) : JStr := '<' :: name ++ ['>']

/-- A closing tag. -/
def closeTag (name : JStr) : JStr := '<' :: '/' :: name ++ ['>']

/-- A self-closed empty tag. -/
def emptyTag (name : JStr) : JStr := '<' :: name ++ ['/', '>']

mutual

/-- Print the entries of a compact object as sibling elements: the
sentinel text key prints its escaped text, the other sentinel keys
(never produced by the wrap rule) print nothing in the model, and an
ordinary key prints one element per array member. -/
def xmlPrintEntries : List (JStr × Json) → JStr
  | [] => []
  | (k, v) :: t =>
    (if k = xtextKey then
      match v with
      | Json.jstr s => xmlEscape s
      | v2 => xmlEscape (jsToString v2)
    else if k = xattrKey || k = xcdataKey then []
    else
      match v with
      | Json.jarr xs => xmlPrintRepeat k xs
      | v2 => xmlPrintElem k v2) ++ xmlPrintEntries t

/-- Print one element per array member, all with the same name. -/
def xmlPrintRepeat (name : JStr) : List Json → JStr
  | [] => []
  | x :: xs => xmlPrintElem name x ++ xmlPrintRepeat name xs

/-- Print one element: object values print their content, null and
empty text print a self-closed tag, scalars print their escaped String()
image. -/
def xmlPrintElem (name : JStr) : Json → JStr
  | Json.jobj mems =>
    let content := xmlPrintEntries mems
    if content = [] then emptyTag name
    else openTag name ++ content ++ closeTag name
  | Json.jarr xs => xmlPrintRepeat name xs
  | Json.jnull => emptyTag name
  | v2 =>
    let t := xmlEscape (jsToString v2)
    if t = [] then emptyTag name
    else openTag name ++ t ++ closeTag name

end

/-- The json2xml model (compact): a top-level object prints its entries,
anything else its escaped String() image. -/
def json2xmlModel (v : Json) : Except JStr JStr :=
  match v with
  | Json.jobj mems => .ok (xmlPrintEntries mems)
  | v2 => .ok (xmlEscape (jsToString v2))

/-- A parsed XML node: text or an element with children (the model
covers the attribute-free fragment; see the section comment). -/
inductive XmlNode where
  | xtext (t : JStr)
  | xelem (name : JStr) (children : List XmlNode)

/-- A tag-name character: anything but whitespace and markup
delimiters. -/
def xmlNameCh (c : Char) : Bool :=
  !(jsWsChar c || c = '<' || c = '>' || c = '/')

/-- Parse a sibling sequence of nodes up to a closing tag or the end of
input; then parse one element at an opening angle bracket.  Rejects
attributes and markup the model does not cover. -/
def xmlParseNodes : Nat → JStr → Option (List XmlNode × JStr)
  | 0, _ => none
  | _ + 1, [] => some ([], [])
  | f + 1, '<' :: rest =>
    match rest with
    | '/' :: _ => some ([], '<' :: rest)
    | _ =>
      let name := rest.takeWhile xmlNameCh
      if name = [] then none
      else
        let after := rest.drop name.length
        match after with
        | '/' :: '>' :: r2 =>
          match xmlParseNodes f r2 with
          | some (sibs, r3) => some (XmlNode.xelem name [] :: sibs, r3)
          | none => none
        | '>' :: r2 =>
          match xmlParseNodes f r2 with
          | some (kids, r3) =>
            match r3 with
            | '<' :: '/' :: r4 =>
              if name.isPrefixOf r4 && (r4.drop name.length).head? = some '>' then
                match xmlParseNodes f ((r4.drop name.length).drop 1) with
                | some (sibs, r5) => some (XmlNode.xelem name kids :: sibs, r5)
                | none => none
              else none
            | _ => none
          | none => none
        | _ => none
  | f + 1, c :: rest =>
    let run := (c :: rest).takeWhile fun d => d ≠ '<'
    match xmlParseNodes f ((c :: rest).drop run.length) with
    | some (sibs, r2) => some (XmlNode.xtext (xmlUnescape run) :: sibs, r2)
    | none => none

/-- Join one text node into the compact accumulator: text joins under
the sentinel text key, becoming an array when repeated. -/
def xmlTextAcc (acc : List (JStr × Json)) (t : JStr) : List (JStr × Json) :=
  match acc.find? fun kv => kv.1 = xtextKey with
  | some (_, Json.jstr t0) => jsUpsert acc xtextKey (Json.jarr [Json.jstr t0, Json.jstr t])
  | some (_, Json.jarr a) => jsUpsert acc xtextKey (Json.jarr (a ++ [Json.jstr t]))
  | some _ => acc
  | none => acc ++ [(xtextKey, Json.jstr t)]

/-- Join one child element into the compact accumulator: repeated
sibling names group into arrays, a single occurrence stays as it is. -/
def xmlElemAcc (acc : List (JStr × Json)) (n : JStr) (v : Json) : List (JStr × Json) :=
  match acc.find? fun kv => kv.1 = n with
  | some (_, Json.jarr a) => jsUpsert acc n (Json.jarr (a ++ [v]))
  | some (_, old) => jsUpsert acc n (Json.jarr [old, v])
  | none => acc ++ [(n, v)]

mutual

/-- Fold children into the compact object shape, recursing into nested
elements. -/
def xmlCompactFold (acc : List (JStr × Json)) : List XmlNode → List (JStr × Json)
  | [] => acc
  | n :: rest => xmlCompactFold (xmlAccNode acc n) rest

/-- Join one child node into the compact accumulator. -/
def xmlAccNode (acc : List (JStr × Json)) : XmlNode → List (JStr × Json)
  | XmlNode.xtext t => xmlTextAcc acc t
  | XmlNode.xelem n kids =>
    xmlElemAcc acc n (Json.jobj (jsObjOrder (xmlCompactFold [] kids)))

end

/-- The compact value of an element with these children. -/
def xmlElemJson (children : List XmlNode) : Json :=
  Json.jobj (jsObjOrder (xmlCompactFold [] children))

/-- The xml2json model (compact): parse, require exactly one root
element with only whitespace text around it, and serialize the compact
shape with a 4-space indent as the library does. -/
def xml2jsonModel (s : JStr) : Except JStr JStr :=
  match xmlParseNodes (s.length + 1) s with
  | none => .error ("Unexpected XML markup".data)
  | some (nodes, rest) =>
    if rest ≠ [] then .error ("Unexpected closing tag".data)
    else
      let elems := nodes.filter fun n => match n with | XmlNode.xelem _ _ => true | _ => false
      let badText := nodes.any fun n =>
        match n with
        | XmlNode.xtext t => (t.dropWhile jsWsChar) ≠ []
        | _ => false
      if badText then .error ("Text data outside of root node".data)
      else
        match elems with
        | [XmlNode.xelem name kids] =>
          .ok (jsonStringify (Json.jobj (jsObjOrder [(name, xmlElemJson kids)])) 4)
        | _ => .error ("Exactly one root element is required".data)

/-- A Libs record that instantiates the XML pair with the model above
and runs as a client; the claims evaluated with it exercise no other
component, so the YAML, CSV, atob and URI components are inert stubs
that fail. -/
def modelLibs : Libs :=
  ⟨fun _ => .error ("yaml load is not exercised".data),
   fun _ => .error ("yaml dump is not exercised".data),
   xml2jsonModel,
   fun _ => .error ("non-compact xml2json is not exercised".data),
   json2xmlModel,
   fun _ => .error ("non-compact json2xml is not exercised".data),
   fun _ => .error ("json2csv is not exercised".data),
   fun _ => .error ("atob is not exercised".data),
   fun _ => .error ("decodeURIComponent is not exercised".data),
   true⟩

/-! ### Claim-level definitions -/

/-- The envelope invariant of the spec: success true comes with a result
and no error; success false with an error and no result. -/
def envOk (success : Bool) (result error : Option JStr) : Prop :=
  (success = true ∧ result ≠ none ∧ error = none) ∨
  (success = false ∧ result = none ∧ error ≠ none)

/-- A scalar (non-container, non-null) value. -/
def isScalar : Json → Bool
  | Json.jbool _ => true
  | Json.jnum _ => true
  | Json.jstr _ => true
  | _ => false

/-- The leaf coercion the XML round trip applies: a scalar is replaced
by the resolution of its String() image (so numbers and booleans survive
by value and numeric or boolean-looking strings coerce). -/
def xmlCoerce (e : Json) : Json := scalarize (jsToString e)

/-- The printed XML of one array member: an item element holding the
escaped String() image. -/
def xmlItemPiece (e : Json) : JStr :=
  openTag itemKey ++ (xmlEscape (jsToString e) ++ closeTag itemKey)

/-- The printed item elements of an array, concatenated. -/
def xmlItemsBody (elems : List Json) : JStr := (elems.map xmlItemPiece).join

/-- The whole printed document of an array: the item elements wrapped in
a root element. -/
def xmlItemsDoc (elems : List Json) : JStr :=
  openTag rootKey ++ (xmlItemsBody elems ++ closeTag rootKey)

/-- The parsed node of one printed item element. -/
def xmlItemNode (e : Json) : XmlNode :=
  XmlNode.xelem itemKey [XmlNode.xtext (jsToString e)]

/-- The compact value of one item element: a lone text member. -/
def xmlItemValue (e : Json) : Json :=
  Json.jobj [(xtextKey, Json.jstr (jsToString e))]

/-- The compact JSON tree the model xml2json builds from the printed
document of an array. -/
def c4json (elems : List Json) : Json :=
  Json.jobj [(rootKey, Json.jobj [(itemKey, Json.jarr (elems.map xmlItemValue))])]

/-- A Libs record whose YAML loader yields no value, the documented
js-yaml behavior on an empty or comment-only document. -/
def undefLibs : Libs :=
  ⟨fun _ => .ok none,
   modelLibs.yamlDump, modelLibs.xml2jsonC, modelLibs.xml2jsonNC,
   modelLibs.json2xmlC, modelLibs.json2xmlNC, modelLibs.csvParse,
   modelLibs.atobFn, modelLibs.decodeURI, true⟩

/-- A Libs record whose YAML loader accepts everything (as js-yaml does
on plain scalars), for witnesses that need a YAML-parseable input. -/
def yamlOkLibs : Libs :=
  ⟨fun _ => .ok (some Json.jnull),
   modelLibs.yamlDump, modelLibs.xml2jsonC, modelLibs.xml2jsonNC,
   modelLibs.json2xmlC, modelLibs.json2xmlNC, modelLibs.csvParse,
   modelLibs.atobFn, modelLibs.decodeURI, true⟩

/-- The bracket-balancing example input of the spec: an object open, a
key, and an unclosed array. -/
def c3input : JStr := "\x7b\"a\": [1,2".data

/-- The text tryFixJson actually rewrites the example to: the brace is
appended before the bracket. -/
def c3fixed : JStr := "\x7b\"a\": [1,2\x7d]".data

/-- The cURL example input of the spec. -/
def c5input : JStr :=
  "curl -X POST https://api.example.com -H ".data ++ dquote ::
    "Content-Type: application/json".data ++ dquote :: " -d ".data ++ squote ::
    lbrace :: dquote :: 'x' :: dquote :: ':' :: '1' :: rbrace :: [squote]

/-- The stats example input of the spec. -/
def c7input : JStr := "\x7b\"a\":1,\"b\":[2,3]\x7d".data

/-- The detector example input of the spec. -/
def c6input : JStr := "\x7b\"a\": 1\x7d".data

/-- A strict-JSON input on which no repair pattern fires. -/
def c2inputA : JStr := "\x7b\"a\":1\x7d".data

/-- A strict-JSON input (a string literal) on which the trailing-comma
pattern fires. -/
def c2inputB : JStr := dquote :: '[' :: '1' :: ',' :: ']' :: [dquote]

/-- A CSV input with a duplicated header name. -/
def c10dupInput : JStr := "a,a\n1,2".data

/-- A CSV input with numeric header names (JS objects enumerate such
keys in ascending numeric order, not insertion order). -/
def c10numInput : JStr := "1,0\nx,y".data

/-- A CSV input with two headers and one short data row. -/
def c10witnessInput : JStr := "a,b\n1".data

/-- The singleton-array input of the XML round trip counterexample. -/
def c4oneInput : JStr := "[1]".data

/-- The two-empty-strings input of the XML round trip counterexample. -/
def c4pairInput : JStr :=
  '[' :: dquote :: dquote :: ',' :: dquote :: dquote :: [']']

/-! ### Claim theorems -/

/-- C3: on the input with an object open, a key, and an unclosed array,
tryFixJson records one missing closing brace and one missing closing
bracket, but appends the brace before the bracket, producing a text that
fails to parse, so the call returns success false with an error — not
success true with a result as the spec example states. -/
theorem c3_bracket_balance_eval :
    tryFixRewrite c3input = (c3fixed, [msgBraces 1, msgBrackets 1]) ∧
    jsonParse c3fixed = none ∧
    tryFixJson c3input = ⟨false, none, some parseErrMsg, [msgBraces 1, msgBrackets 1]⟩ :=
  ⟨rfl, rfl, rfl⟩

/-- C5: on the spec's cURL example, the detected type, the URL and the
header pair are as claimed, but the lazily quoted data regex stops at
the first quote of either kind inside the single-quoted payload, so the
extracted body is the single brace, repaired to the empty object — the
result does not parse to the posted object. -/
theorem c5_curl_extraction_eval :
    smartExtract modelLibs c5input =
      ⟨true, some [lbrace, rbrace], some ("cURL".data), none⟩ ∧
    (extractFromCurl c5input).url = some ("https://api.example.com".data) ∧
    (extractFromCurl c5input).headers =
      some [("Content-Type".data, "application/json".data)] ∧
    jsonParse [lbrace, rbrace] = some (Json.jobj []) :=
  ⟨rfl, rfl, rfl, rfl⟩

/-- C7 counterexample: the traversal of getJsonStats visits five nodes
on the example (the root object, 1, the array, 2 and 3), not six; the
depth is 2 as claimed. -/
theorem c7_stats_counterexample :
    getJsonStats c7input = some ⟨5, 2, 17⟩ ∧ (5 : Nat) ≠ 6 :=
  ⟨rfl, by decide⟩

/-- C7 amended: on the example input, getJsonStats reports nodeCount 5
(each node of the full pre-order traversal counted once) and depth 2
(root at depth 0), with the 17-byte size of the text. -/
theorem c7_stats_eval : getJsonStats c7input = some ⟨5, 2, 17⟩ := rfl

/-- C9: getJsonPathAtPosition is total — for every input text and every
integer position, including negative ones and ones past the end, it
returns a path that begins with the dollar root. -/
theorem c9_path_total_dollar (s : JStr) (pos : Int) :
    ∃ rest, getJsonPathAtPosition s pos = '$' :: rest :=
  ⟨_, rfl⟩

/-- C2 counterexample: on one strict-JSON input no pattern fires but the
repair result (2-space indent) differs from formatJson's (4-space
indent); on another strict-JSON input (a string literal containing a
bracketed trailing comma) the trailing-comma pattern fires, so the fixes
list is not empty. -/
theorem c2_counterexample :
    jsonParse c2inputA = some (Json.jobj [("a".data, Json.jnum ⟨false, 1, 0⟩)]) ∧
    (tryFixJson c2inputA).fixes = [] ∧
    (tryFixJson c2inputA).result ≠ (formatJson c2inputA).result ∧
    jsonParse c2inputB = some (Json.jstr ('[' :: '1' :: ',' :: [']'])) ∧
    (tryFixJson c2inputB).fixes = [msgTrailing] :=
  ⟨rfl, rfl, by decide, rfl, rfl⟩

/-- C1 counterexample: yamlToJson with the YAML loader yielding no value
(the documented js-yaml result for an empty document) reports success
true with neither a result nor an error, violating the envelope
invariant. -/
theorem c1_envelope_counterexample :
    yamlToJson undefLibs [] = ⟨true, none, none⟩ ∧
    ¬ envOk (yamlToJson undefLibs []).success (yamlToJson undefLibs []).result
        (yamlToJson undefLibs []).error := by
  refine ⟨rfl, ?_⟩
  intro h
  rcases h with ⟨_, hr, _⟩ | ⟨hs, _, _⟩
  · exact hr rfl
  · exact Bool.noConfusion hs

/-- C10 counterexample: with a duplicated header the row object has one
key where the header list has two names, and with numeric header names
the keys enumerate in ascending numeric order rather than header order. -/
theorem c10_csv_counterexample :
    (csvToJson modelLibs c10dupInput).success = true ∧
    csvRows c10dupInput = [Json.jobj [("a".data, Json.jnum ⟨false, 2, 0⟩)]] ∧
    csvHeaders ("a,a".data) = ["a".data, "a".data] ∧
    ["a".data] ≠ ["a".data, "a".data] ∧
    csvRows c10numInput =
      [Json.jobj [("0".data, Json.jstr ['y']), ("1".data, Json.jstr ['x'])]] ∧
    csvHeaders ("1,0".data) = ["1".data, "0".data] ∧
    ["0".data, "1".data] ≠ ["1".data, "0".data] :=
  ⟨rfl, rfl, rfl, by decide, rfl, rfl, by decide⟩

/-- C4 counterexample: the XML round trip is not the identity on the
empty array (which comes back as the empty object), on a singleton array
(which comes back as an item-keyed object), or on an array of empty
strings (which comes back as an array of empty objects) — none of these
is a leaf-scalar coercion. -/
theorem c4_xml_roundtrip_counterexample :
    (jsonToXml modelLibs ("[]".data)).result = some ("<root/>".data) ∧
    (xmlToJson modelLibs ("<root/>".data)).result = some [lbrace, rbrace] ∧
    jsonParse [lbrace, rbrace] = some (Json.jobj []) ∧
    (jsonToXml modelLibs c4oneInput).result = some ("<root><item>1</item></root>".data) ∧
    ((xmlToJson modelLibs ("<root><item>1</item></root>".data)).result.map jsonParse) =
      some (some (Json.jobj [("item".data, Json.jnum ⟨false, 1, 0⟩)])) ∧
    ((jsonToXml modelLibs c4pairInput).result.bind
        (fun xm => (xmlToJson modelLibs xm).result.map jsonParse)) =
      some (some (Json.jarr [Json.jobj [], Json.jobj []])) :=
  ⟨rfl, rfl, rfl, rfl, rfl, rfl⟩

/-- A text that begins with an opening angle bracket is not strict
JSON. -/
theorem jsonParse_lt_head (r : JStr) : jsonParse ('<' :: r) = none := by
  have hws : skipWs ('<' :: r) = '<' :: r := by
    simp [skipWs, List.dropWhile, jsonWsChar]
  have hd : isDigitCh '<' = false := rfl
  simp [jsonParse, jpVal, hws, lbrace, dquote, hd, jpNum, takeDigits]

/-- C6: a text that parses as strict JSON (after trimming) and as YAML
is classified json by detectFormat, never yaml: the XML branch cannot
fire because strict JSON never starts with an angle bracket, and in the
YAML branch a successful strict parse suppresses the yaml answer. -/
theorem c6_detect_json_precedence (L : Libs) (x : JStr) (v : Json) (y : Option Json)
    (hj : jsonParse (jsTrim x) = some v)
    (hy : L.yamlLoad (jsTrim x) = .ok y) :
    detectFormat L x = some Fmt.json := by
  have hne : jsTrim x ≠ [] := by
    intro h
    rw [h] at hj
    exact Option.noConfusion (hj.symm.trans rfl)
  have hxne : x ≠ [] := by
    intro h
    exact hne (by rw [h]; rfl)
  have hlt : (jsTrim x).head? ≠ some '<' := by
    intro h
    match hcase : jsTrim x with
    | [] => exact hne hcase
    | c :: r =>
      rw [hcase] at h hj
      have : c = '<' := by simpa using h
      rw [this] at hj
      rw [jsonParse_lt_head] at hj
      exact Option.noConfusion hj
  unfold detectFormat
  rw [if_neg (by simp [hxne, hne])]
  rw [if_neg (by intro h; exact hlt (by simpa using (Bool.and_eq_true_iff.mp
    (Bool.and_eq_true_iff.mp h).1).1))]
  have hyhit :
      (if hasSubstr [':'] (jsTrim x) &&
          (hasSubstr ['\n'] (jsTrim x) || hasSubstr [' ', ' '] (jsTrim x)) then
        match L.yamlLoad (jsTrim x) with
        | .ok _ => (jsonParse (jsTrim x)).isNone
        | .error _ => false
      else false) = false := by
    split
    · rw [hy, hj]
      rfl
    · rfl
  rw [if_neg (by intro h; rw [hyhit] at h; exact Bool.noConfusion h)]
  rw [hj]

/-- C6 witness: the spec's example object text, with a loader that
accepts it, is classified json. -/
theorem c6_detect_witness :
    jsonParse (jsTrim c6input) = some (Json.jobj [("a".data, Json.jnum ⟨false, 1, 0⟩)]) ∧
    yamlOkLibs.yamlLoad (jsTrim c6input) = .ok (some Json.jnull) ∧
    detectFormat yamlOkLibs c6input = some Fmt.json :=
  ⟨rfl, rfl, c6_detect_json_precedence yamlOkLibs c6input
    (Json.jobj [("a".data, Json.jnum ⟨false, 1, 0⟩)]) (some Json.jnull) rfl rfl⟩

/-- C2 amended: on strict JSON on which no rewrite pattern fires (no
single-quote pair, no trailing-comma pattern, no unquoted-key pattern,
no global brace or bracket surplus, no comment pattern), tryFixJson
succeeds with an empty fixes list and the 2-space re-serialization,
while formatJson produces the 4-space re-serialization — so the two
results agree only when no indentation is emitted. -/
theorem c2_repair_amended (x : JStr) (v : Json)
    (hp : jsonParse x = some v)
    (h1 : reTest singleQuoteRe x = false)
    (h2 : reTest trailingCommaRe x = false)
    (h3 : reTest unquotedKeyRe x = false)
    (h4 : countChar lbrace x ≤ countChar rbrace x)
    (h5 : countChar '[' x ≤ countChar ']' x)
    (h6 : reTest commentRe x = false) :
    tryFixJson x = ⟨true, some (jsonStringify v 2), none, []⟩ ∧
    formatJson x = ⟨true, some (jsonStringify v 4), none⟩ := by
  have hrw : tryFixRewrite x = (x, []) := by
    unfold tryFixRewrite tryFixStep
    simp [h1, h2, h3, h6, Nat.not_lt.mpr h4, Nat.not_lt.mpr h5]
  refine ⟨?_, ?_⟩
  · simp [tryFixJson, hrw, hp]
  · simp [formatJson, hp]

/-- C2 witness: the pattern-free object example. -/
theorem c2_repair_amended_witness :
    jsonParse c2inputA = some (Json.jobj [("a".data, Json.jnum ⟨false, 1, 0⟩)]) ∧
    tryFixJson c2inputA =
      ⟨true, some (jsonStringify (Json.jobj [("a".data, Json.jnum ⟨false, 1, 0⟩)]) 2),
        none, []⟩ :=
  ⟨rfl, (c2_repair_amended c2inputA (Json.jobj [("a".data, Json.jnum ⟨false, 1, 0⟩)])
    rfl rfl rfl rfl (by decide) (by decide) rfl).1⟩

/-! ### The string escape round trip (C8, also reused by C4) -/

/-- hexVal inverts hexDigit below 16. -/
theorem hexVal_hexDigit : ∀ k : Nat, k < 16 → hexVal (hexDigit k) = some k := by decide

/-- Parsing one escaped character: the parser consumes exactly the
escape of c and produces c. -/
theorem jpStr_escChar (c : Char) (rest : JStr) (f : Nat) :
    jpStr (f + 1) (escChar c ++ rest) = (jpStr f rest).map fun p => (c :: p.1, p.2) := by
  unfold escChar
  split_ifs with hq hb h8 ht hn h12 hr hc
  · subst hq; rfl
  · subst hb; rfl
  · subst h8; rfl
  · subst ht; rfl
  · subst hn; rfl
  · subst h12; rfl
  · subst hr; rfl
  · show jpStr (f + 1)
      (bslash :: 'u' :: '0' :: '0' :: hexDigit (c.toNat / 16) :: hexDigit (c.toNat % 16) :: rest) =
      (jpStr f rest).map fun p => (c :: p.1, p.2)
    have hd1 : c.toNat / 16 < 16 := by omega
    have hd2 : c.toNat % 16 < 16 := by omega
    have hx : hex4 '0' '0' (hexDigit (c.toNat / 16)) (hexDigit (c.toNat % 16)) =
        some c.toNat := by
      simp only [hex4, hexVal_hexDigit _ hd1, hexVal_hexDigit _ hd2,
        show hexVal '0' = some 0 from rfl]
      congr 1
      omega
    have hhi : isHighSurr c.toNat = false := by
      simp [isHighSurr]
      omega
    simp only [jpStr, hx, hhi]
    have : Char.ofNat c.toNat = c := by
      simp [Char.ofNat, Nat.isValidChar]
      split
      · rfl
      · omega
    rw [this]
    rfl
  · show jpStr (f + 1) (c :: rest) = (jpStr f rest).map fun p => (c :: p.1, p.2)
    conv_lhs => rw [jpStr.eq_def]
    simp only []
    rw [if_neg hq, if_neg hb, if_neg (by omega)]

/-- escBody distributes over cons. -/
theorem escBody_cons (c : Char) (s : JStr) : escBody (c :: s) = escChar c ++ escBody s := rfl

/-- Parsing an escaped body followed by the closing quote recovers the
original characters (with fuel beyond the character count). -/
theorem jpStr_escBody : ∀ (s : JStr) (f : Nat), s.length < f → ∀ (rest : JStr),
    jpStr f (escBody s ++ dquote :: rest) = some (s, rest)
  | [], f, hf, rest => by
    match f, hf with
    | f + 1, _ =>
      show jpStr (f + 1) (dquote :: rest) = some ([], rest)
      conv_lhs => rw [jpStr.eq_def]
      simp
  | c :: s, f, hf, rest => by
    match f, hf with
    | f + 1, hf =>
      rw [escBody_cons, List.append_assoc, jpStr_escChar,
        jpStr_escBody s f (by simpa using Nat.lt_of_succ_lt_succ hf) rest]
      rfl

/-- The escaped body is at least as long as the original. -/
theorem escBody_length (s : JStr) : s.length ≤ (escBody s).length := by
  induction s with
  | nil => simp [escBody]
  | cons c s ih =>
    rw [escBody_cons]
    have : 1 ≤ (escChar c).length := by
      unfold escChar
      split_ifs <;> simp
    simp only [List.length_append, List.length_cons]
    omega

/-- Parsing a quoted escaped body as a complete JSON text yields the
original string value. -/
theorem jsonParse_quoted_escBody (s : JStr) :
    jsonParse (dquote :: escBody s ++ [dquote]) = some (Json.jstr s) := by
  have hlen : s.length < (escBody s ++ [dquote]).length + 1 := by
    have := escBody_length s
    simp only [List.length_append, List.length_cons]
    omega
  have hstr : jpString (escBody s ++ [dquote]) = some (s, []) := by
    unfold jpString
    exact jpStr_escBody s _ hlen []
  show (match jpVal (2 * (dquote :: escBody s ++ [dquote]).length + 2)
      (dquote :: escBody s ++ [dquote]) with
    | some (v, r) => if skipWs r = [] then some v else none
    | none => none) = some (Json.jstr s)
  have hv : jpVal (2 * (dquote :: escBody s ++ [dquote]).length + 2)
      (dquote :: escBody s ++ [dquote]) = some (Json.jstr s, []) := by
    have hstep : jpVal (2 * (dquote :: escBody s ++ [dquote]).length + 2)
        (dquote :: escBody s ++ [dquote]) =
        (jpString (escBody s ++ [dquote])).map fun p => (Json.jstr p.1, p.2) := rfl
    rw [hstep, hstr]
    rfl
  rw [hv]
  rfl

/-- C8: escaping always succeeds and yields the escaped body (the outer
quotes stripped), and unescaping that body always succeeds and returns
exactly the original string, through the strict-parse branch. -/
theorem c8_escape_unescape_roundtrip (s : JStr) :
    escapeString s = ⟨true, some (escBody s), none⟩ ∧
    unescapeString (escBody s) = ⟨true, some s, none⟩ := by
  constructor
  · have h1 : ((dquote :: escBody s ++ [dquote]).drop 1).take
        ((dquote :: escBody s ++ [dquote]).length - 2) = escBody s := by
      simp
    show EnvResult.mk true
      (some (((dquote :: escBody s ++ [dquote]).drop 1).take
        ((dquote :: escBody s ++ [dquote]).length - 2))) none =
      EnvResult.mk true (some (escBody s)) none
    rw [h1]
  · unfold unescapeString
    rw [jsonParse_quoted_escBody s]

/-! ### Envelope lemmas (C1) -/

/-- tryFixJson keeps the envelope invariant. -/
theorem envOk_tryFixJson (s : JStr) :
    envOk (tryFixJson s).success (tryFixJson s).result (tryFixJson s).error := by
  simp only [tryFixJson, envOk]
  split <;> simp

/-- A successful repair always carries a result. -/
theorem tryFixJson_success_result (d : JStr) (h : (tryFixJson d).success = true) :
    (tryFixJson d).result ≠ none := by
  have h2 := envOk_tryFixJson d
  unfold envOk at h2
  rcases h2 with ⟨_, hr, _⟩ | ⟨hs, _, _⟩
  · exact hr
  · rw [h] at hs
    exact Bool.noConfusion hs

/-- formatJson keeps the envelope invariant. -/
theorem envOk_formatJson (s : JStr) :
    envOk (formatJson s).success (formatJson s).result (formatJson s).error := by
  simp only [formatJson, envOk]
  split <;> simp

/-- compressJson keeps the envelope invariant. -/
theorem envOk_compressJson (s : JStr) :
    envOk (compressJson s).success (compressJson s).result (compressJson s).error := by
  simp only [compressJson, envOk]
  split <;> simp

/-- escapeString keeps the envelope invariant. -/
theorem envOk_escapeString (s : JStr) :
    envOk (escapeString s).success (escapeString s).result (escapeString s).error := by
  simp only [escapeString, envOk]
  simp

/-- A complete JSON text that begins with a double quote only ever
parses to a string value. -/
theorem jsonParse_dquote_not_other (t : JStr) (v : Json)
    (h : jsonParse (dquote :: t) = some v) (hne : ∀ r, v = Json.jstr r → False) :
    False := by
  have hstep : jpVal (2 * (dquote :: t).length + 2) (dquote :: t) =
      (jpString t).map fun p => (Json.jstr p.1, p.2) := rfl
  unfold jsonParse at h
  rw [hstep] at h
  cases hp : jpString t with
  | none =>
    rw [hp] at h
    exact Option.noConfusion h
  | some p =>
    rw [hp] at h
    have h2 : (if skipWs p.2 = [] then some (Json.jstr p.1) else none) = some v := h
    split at h2
    · exact hne p.1 (Option.some.inj h2).symm
    · exact Option.noConfusion h2

/-- unescapeString keeps the envelope invariant. -/
theorem envOk_unescapeString (s : JStr) :
    envOk (unescapeString s).success (unescapeString s).result (unescapeString s).error := by
  simp only [unescapeString, envOk]
  split
  · simp
  · rename_i v hne heq
    exact absurd heq (by exact fun hh => jsonParse_dquote_not_other _ _ hh hne)
  · simp

/-- extractFromCurl keeps the envelope invariant. -/
theorem envOk_extractFromCurl (s : JStr) :
    envOk (extractFromCurl s).success (extractFromCurl s).result (extractFromCurl s).error := by
  simp only [extractFromCurl, envOk]
  split
  · simp
  · split
    · split
      · simp
      · split
        · exact Or.inl ⟨rfl, tryFixJson_success_result _ (by assumption), rfl⟩
        · simp
    · simp

/-- decodeBase64Json keeps the envelope invariant. -/
theorem envOk_decodeBase64Json (L : Libs) (s : JStr) :
    envOk (decodeBase64Json L s).success (decodeBase64Json L s).result
      (decodeBase64Json L s).error := by
  simp only [decodeBase64Json, envOk]
  split
  · simp
  · split
    · simp
    · split
      · simp
      · split
        · exact Or.inl ⟨rfl, tryFixJson_success_result _ (by assumption), rfl⟩
        · simp

/-- yamlToJson keeps the envelope invariant whenever the loader yields a
value or throws (the undefined case is the counterexample). -/
theorem envOk_yamlToJson (L : Libs) (s : JStr) (h : L.yamlLoad s ≠ .ok none) :
    envOk (yamlToJson L s).success (yamlToJson L s).result (yamlToJson L s).error := by
  simp only [yamlToJson, envOk]
  split
  · simp
  · rename_i heq
    exact absurd heq h
  · simp

/-- jsonToYaml keeps the envelope invariant. -/
theorem envOk_jsonToYaml (L : Libs) (s : JStr) :
    envOk (jsonToYaml L s).success (jsonToYaml L s).result (jsonToYaml L s).error := by
  simp only [jsonToYaml, envOk]
  split
  · simp
  · split <;> simp

/-- formatYaml keeps the envelope invariant (its falsy guards remake the
envelope whatever yamlToJson and jsonToYaml return). -/
theorem envOk_formatYaml (L : Libs) (s : JStr) :
    envOk (formatYaml L s).success (formatYaml L s).result (formatYaml L s).error := by
  simp only [formatYaml, envOk]
  split
  · simp
  · split
    · simp
    · rename_i h2
      rw [not_not] at h2
      left
      refine ⟨rfl, ?_, rfl⟩
      intro hnone
      rw [hnone] at h2
      simp at h2

/-- jsonToCsv keeps the envelope invariant. -/
theorem envOk_jsonToCsv (L : Libs) (s : JStr) :
    envOk (jsonToCsv L s).success (jsonToCsv L s).result (jsonToCsv L s).error := by
  simp only [jsonToCsv, envOk]
  split
  · simp
  · split
    · simp
    · split <;> simp

/-- csvToJson keeps the envelope invariant. -/
theorem envOk_csvToJson (L : Libs) (s : JStr) :
    envOk (csvToJson L s).success (csvToJson L s).result (csvToJson L s).error := by
  simp only [csvToJson, envOk]
  split
  · simp
  · split <;> simp

/-- jsonToXml keeps the envelope invariant. -/
theorem envOk_jsonToXml (L : Libs) (s : JStr) :
    envOk (jsonToXml L s).success (jsonToXml L s).result (jsonToXml L s).error := by
  simp only [jsonToXml, envOk]
  split
  · simp
  · split <;> simp

/-- xmlToJson keeps the envelope invariant. -/
theorem envOk_xmlToJson (L : Libs) (s : JStr) :
    envOk (xmlToJson L s).success (xmlToJson L s).result (xmlToJson L s).error := by
  simp only [xmlToJson, envOk]
  repeat' split
  all_goals simp

/-- formatXml keeps the envelope invariant. -/
theorem envOk_formatXml (L : Libs) (s : JStr) :
    envOk (formatXml L s).success (formatXml L s).result (formatXml L s).error := by
  simp only [formatXml, envOk]
  split
  · simp
  · split
    · simp
    · split
      · simp
      · split <;> simp

/-- Any result of the cURL step satisfies the success envelope. -/
theorem smartCurlStep_ok (t : JStr) (r : ExtractResult) (h : smartCurlStep t = some r) :
    r.success = true ∧ r.result ≠ none ∧ r.error = none := by
  simp only [smartCurlStep] at h
  split at h
  · split at h
    · rename_i hcond
      cases h
      refine ⟨rfl, ?_, rfl⟩
      simp only []
      intro hnone
      rw [hnone] at hcond
      simp at hcond
    · exact Option.noConfusion h
  · exact Option.noConfusion h

/-- Any result of the Base64 step satisfies the success envelope. -/
theorem smartB64Step_ok (L : Libs) (t : JStr) (r : ExtractResult)
    (h : smartB64Step L t = some r) :
    r.success = true ∧ r.result ≠ none ∧ r.error = none := by
  simp only [smartB64Step] at h
  split at h
  · split at h
    · rename_i hbs
      cases h
      refine ⟨rfl, ?_, rfl⟩
      have h2 := envOk_decodeBase64Json L t
      unfold envOk at h2
      rcases h2 with ⟨_, hr, _⟩ | ⟨hs2, _, _⟩
      · simpa using hr
      · rw [hbs] at hs2
        exact Bool.noConfusion hs2
    · exact Option.noConfusion h
  · exact Option.noConfusion h

/-- Any result of the URL-encoded step satisfies the success envelope. -/
theorem smartUriStep_ok (L : Libs) (t : JStr) (r : ExtractResult)
    (h : smartUriStep L t = some r) :
    r.success = true ∧ r.result ≠ none ∧ r.error = none := by
  simp only [smartUriStep] at h
  split at h
  · split at h
    · split at h
      · cases h
        simp
      · exact Option.noConfusion h
    · exact Option.noConfusion h
  · exact Option.noConfusion h

/-- Any result of the log-line step satisfies the success envelope. -/
theorem smartLogStep_ok (t : JStr) (r : ExtractResult) (h : smartLogStep t = some r) :
    r.success = true ∧ r.result ≠ none ∧ r.error = none := by
  simp only [smartLogStep] at h
  split at h
  · split at h
    · split at h
      · cases h
        simp
      · split at h
        · cases h
          exact ⟨rfl, tryFixJson_success_result _ (by assumption), rfl⟩
        · exact Option.noConfusion h
    · exact Option.noConfusion h
  · exact Option.noConfusion h

/-- smartExtract keeps the envelope invariant. -/
theorem envOk_smartExtract (L : Libs) (s : JStr) :
    envOk (smartExtract L s).success (smartExtract L s).result (smartExtract L s).error := by
  simp only [smartExtract, envOk]
  split
  · rename_i r heq
    exact Or.inl (smartCurlStep_ok _ r heq)
  · split
    · rename_i r heq
      exact Or.inl (smartB64Step_ok L _ r heq)
    · split
      · rename_i r heq
        exact Or.inl (smartUriStep_ok L _ r heq)
      · split
        · rename_i r heq
          exact Or.inl (smartLogStep_ok _ r heq)
        · split
          · simp
          · split
            · exact Or.inl ⟨rfl, tryFixJson_success_result _ (by assumption), rfl⟩
            · simp

/-- convertToJson keeps the envelope invariant when its YAML delegate
does (the pivot of convertFormat re-guards it anyway). -/
theorem envOk_convertFormat (L : Libs) (s : JStr) (fromType : Option Fmt) (toType : Fmt) :
    envOk (convertFormat L s fromType toType).success
      (convertFormat L s fromType toType).result
      (convertFormat L s fromType toType).error := by
  simp only [convertFormat, envOk]
  split
  · simp
  · split
    · simp
    · split
      · exact envOk_formatJson _
      · exact envOk_jsonToXml L _
      · exact envOk_jsonToYaml L _

/-- C1 amended: every public operation returns, and its envelope has
exactly one of result/error matching its success flag, for every input
and every behavior of the external libraries — with the one exception of
yamlToJson when the YAML loader yields no value (an empty document), the
counterexample, which the hypothesis on that conjunct excludes. -/
theorem c1_envelope_amended (L : Libs) (s : JStr) :
    envOk (formatJson s).success (formatJson s).result (formatJson s).error ∧
    envOk (formatXml L s).success (formatXml L s).result (formatXml L s).error ∧
    envOk (formatYaml L s).success (formatYaml L s).result (formatYaml L s).error ∧
    envOk (compressJson s).success (compressJson s).result (compressJson s).error ∧
    envOk (jsonToCsv L s).success (jsonToCsv L s).result (jsonToCsv L s).error ∧
    envOk (jsonToXml L s).success (jsonToXml L s).result (jsonToXml L s).error ∧
    envOk (jsonToYaml L s).success (jsonToYaml L s).result (jsonToYaml L s).error ∧
    envOk (csvToJson L s).success (csvToJson L s).result (csvToJson L s).error ∧
    envOk (xmlToJson L s).success (xmlToJson L s).result (xmlToJson L s).error ∧
    (L.yamlLoad s ≠ .ok none →
      envOk (yamlToJson L s).success (yamlToJson L s).result (yamlToJson L s).error) ∧
    envOk (tryFixJson s).success (tryFixJson s).result (tryFixJson s).error ∧
    envOk (extractFromCurl s).success (extractFromCurl s).result (extractFromCurl s).error ∧
    envOk (decodeBase64Json L s).success (decodeBase64Json L s).result
      (decodeBase64Json L s).error ∧
    envOk (smartExtract L s).success (smartExtract L s).result (smartExtract L s).error ∧
    (∀ (fromType : Option Fmt) (toType : Fmt),
      envOk (convertFormat L s fromType toType).success
        (convertFormat L s fromType toType).result
        (convertFormat L s fromType toType).error) ∧
    envOk (escapeString s).success (escapeString s).result (escapeString s).error ∧
    envOk (unescapeString s).success (unescapeString s).result (unescapeString s).error :=
  ⟨envOk_formatJson s, envOk_formatXml L s, envOk_formatYaml L s, envOk_compressJson s,
   envOk_jsonToCsv L s, envOk_jsonToXml L s, envOk_jsonToYaml L s, envOk_csvToJson L s,
   envOk_xmlToJson L s, fun h => envOk_yamlToJson L s h, envOk_tryFixJson s,
   envOk_extractFromCurl s, envOk_decodeBase64Json L s, envOk_smartExtract L s,
   fun fromType toType => envOk_convertFormat L s fromType toType,
   envOk_escapeString s, envOk_unescapeString s⟩

/-- C1 witness: the inner yamlToJson hypothesis discharged concretely at
the model libraries (whose loader throws rather than yielding no value)
on the one-character numeral. -/
theorem c1_envelope_amended_witness :
    modelLibs.yamlLoad ("1".data) ≠ .ok none ∧
    envOk (yamlToJson modelLibs ("1".data)).success
      (yamlToJson modelLibs ("1".data)).result (yamlToJson modelLibs ("1".data)).error ∧
    envOk (formatJson ("1".data)).success (formatJson ("1".data)).result
      (formatJson ("1".data)).error :=
  ⟨by intro h; exact Except.noConfusion h,
   (c1_envelope_amended modelLibs ("1".data)).2.2.2.2.2.2.2.2.2.1
     (by intro h; exact Except.noConfusion h),
   (c1_envelope_amended modelLibs ("1".data)).1⟩

/-! ### Object-order lemmas (C10, also reused by C4) -/

/-- Writing a fresh key appends it. -/
theorem jsUpsert_fresh {A : Type} (acc : List (JStr × A)) (k : JStr) (v : A)
    (h : k ∉ acc.map Prod.fst) : jsUpsert acc k v = acc ++ [(k, v)] := by
  induction acc with
  | nil => rfl
  | cons kv t ih =>
    simp only [List.map_cons, List.mem_cons] at h
    push_neg at h
    obtain ⟨k0, v0⟩ := kv
    unfold jsUpsert
    rw [if_neg (fun hh => h.1 hh.symm), ih h.2]
    rfl

/-- Folding writes of pairwise-fresh keys over an accumulator with
disjoint keys appends them in order. -/
theorem foldl_upsert_nodup {A : Type} (l : List (JStr × A)) :
    ∀ acc : List (JStr × A), (acc.map Prod.fst ++ l.map Prod.fst).Nodup →
      l.foldl (fun a kv => jsUpsert a kv.1 kv.2) acc = acc ++ l := by
  induction l with
  | nil =>
    intro acc _
    simp
  | cons kv t ih =>
    intro acc h
    obtain ⟨k, v⟩ := kv
    have hk : k ∉ acc.map Prod.fst := by
      intro hmem
      rcases List.nodup_append.mp h with ⟨_, _, hdisj⟩
      exact hdisj hmem (by rw [List.map_cons]; exact List.mem_cons_self _ _)
    rw [List.foldl_cons]
    rw [show jsUpsert acc k v = acc ++ [(k, v)] from jsUpsert_fresh acc k v hk]
    rw [ih (acc ++ [(k, v)]) (by
      simp only [List.map_append, List.map_cons, List.map_nil] at h ⊢
      simpa [List.append_assoc] using h)]
    simp

/-- The JS property order leaves a list without array-index keys
unchanged. -/
theorem jsObjOrder_nonidx {A : Type} (l : List (JStr × A))
    (h : ∀ kv ∈ l, isIdxKey kv.1 = false) : jsObjOrder l = l := by
  unfold jsObjOrder
  have h1 : l.filter (fun kv => isIdxKey kv.1) = [] := by
    rw [List.filter_eq_nil_iff]
    intro kv hm
    simp [h kv hm]
  have h2 : l.filter (fun kv => decide (¬ isIdxKey kv.1 = true)) = l := by
    rw [List.filter_eq_self]
    intro kv hm
    simp [h kv hm]
  rw [h1, h2]
  rfl

/-- jsRecord is the identity on a member list with distinct, non-index
keys. -/
theorem jsRecord_id {A : Type} (l : List (JStr × A))
    (hnd : (l.map Prod.fst).Nodup) (hni : ∀ kv ∈ l, isIdxKey kv.1 = false) :
    jsRecord l = l := by
  unfold jsRecord
  rw [foldl_upsert_nodup l [] (by simpa using hnd)]
  rw [List.nil_append]
  exact jsObjOrder_nonidx l hni

/-- mkObj is the plain object on a member list with distinct, non-index
keys. -/
theorem mkObj_id (l : List (JStr × Json))
    (hnd : (l.map Prod.fst).Nodup) (hni : ∀ kv ∈ l, isIdxKey kv.1 = false) :
    mkObj l = Json.jobj l := by
  unfold mkObj
  rw [jsRecord_id l hnd hni]

/-- C10 amended: in a client environment, on CSV whose trimmed text has
a header line and at least one data row, and whose (trimmed,
quote-stripped) header names are pairwise distinct and not array-index
strings, csvToJson succeeds with the 4-space serialization of the row
array; each row object holds exactly the header names as its keys in
header order, and a header beyond the row's cells is bound to the empty
string. -/
theorem c10_csv_shape_amended (L : Libs) (s : JStr)
    (hw : L.windowDefined = true)
    (hlen : 2 ≤ (splitOnChar '\n' (jsTrim s)).length)
    (hnd : (csvHeaders ((splitOnChar '\n' (jsTrim s)).headD [])).Nodup)
    (hni : ∀ h ∈ csvHeaders ((splitOnChar '\n' (jsTrim s)).headD []), isIdxKey h = false) :
    csvToJson L s = ⟨true, some (jsonStringify (Json.jarr (csvRows s)) 4), none⟩ ∧
    ∀ line, line ∈ (splitOnChar '\n' (jsTrim s)).drop 1 →
      csvRow (csvHeaders ((splitOnChar '\n' (jsTrim s)).headD [])) line =
        Json.jobj ((csvHeaders ((splitOnChar '\n' (jsTrim s)).headD [])).enum.map
          fun p => (p.2, csvCell (((splitOnChar ',' line).map
            fun v => stripQuotes (jsTrim v)).getD p.1 []))) ∧
      ((csvHeaders ((splitOnChar '\n' (jsTrim s)).headD [])).enum.map
          fun p => (p.2, csvCell (((splitOnChar ',' line).map
            fun v => stripQuotes (jsTrim v)).getD p.1 []))).map Prod.fst =
        csvHeaders ((splitOnChar '\n' (jsTrim s)).headD []) ∧
      ∀ i, i < (csvHeaders ((splitOnChar '\n' (jsTrim s)).headD [])).length →
        ((splitOnChar ',' line).map fun v => stripQuotes (jsTrim v)).length ≤ i →
        ((csvHeaders ((splitOnChar '\n' (jsTrim s)).headD [])).enum.map
            fun p => (p.2, csvCell (((splitOnChar ',' line).map
              fun v => stripQuotes (jsTrim v)).getD p.1 []))).get? i =
          some ((csvHeaders ((splitOnChar '\n' (jsTrim s)).headD [])).getD i [],
            Json.jstr []) := by
  set headers := csvHeaders ((splitOnChar '\n' (jsTrim s)).headD []) with hh
  have hkeys : ∀ (line : JStr),
      ((headers.enum.map fun p => (p.2, csvCell (((splitOnChar ',' line).map
        fun v => stripQuotes (jsTrim v)).getD p.1 []))).map Prod.fst) = headers := by
    intro line
    rw [List.map_map]
    have : (Prod.fst ∘ fun p : Nat × JStr =>
        (p.2, csvCell (((splitOnChar ',' line).map
          fun v => stripQuotes (jsTrim v)).getD p.1 []))) = Prod.snd := by
      funext p
      rfl
    rw [this, List.enum_map_snd]
  refine ⟨?_, ?_⟩
  · simp only [csvToJson, hw]
    rw [if_neg (by simp), if_neg (by omega)]
  · intro line _
    refine ⟨?_, hkeys line, ?_⟩
    · show mkObj _ = _
      exact mkObj_id _
        (by rw [hkeys line]; exact hnd)
        (by
          intro kv hm
          rcases List.mem_map.mp hm with ⟨p, hp, hkv⟩
          have : kv.1 = p.2 := by rw [← hkv]
          rw [this]
          exact hni p.2 (by
            have := List.enum_map_snd headers
            exact this ▸ List.mem_map_of_mem Prod.snd hp))
    · intro i hi hlen2
      rw [List.get?_map, List.get?_enum, List.get?_eq_get hi]
      rw [show ((some (headers.get ⟨i, hi⟩)).map fun a => (i, a)).map
          (fun p => (p.2, csvCell (((splitOnChar ',' line).map
            fun v => stripQuotes (jsTrim v)).getD p.1 []))) =
          some (headers.get ⟨i, hi⟩, csvCell (((splitOnChar ',' line).map
            fun v => stripQuotes (jsTrim v)).getD i [])) from rfl]
      rw [List.getD_eq_default _ _ hlen2, List.getD_eq_get headers [] hi]
      rfl

/-- C10 witness: a two-header CSV with one short row — the row object
has both header names, the missing cell bound to the empty string. -/
theorem c10_csv_shape_amended_witness :
    csvToJson modelLibs c10witnessInput =
      ⟨true, some (jsonStringify (Json.jarr (csvRows c10witnessInput)) 4), none⟩ ∧
    csvRows c10witnessInput =
      [Json.jobj [("a".data, Json.jnum ⟨false, 1, 0⟩), ("b".data, Json.jstr [])]] :=
  ⟨(c10_csv_shape_amended modelLibs c10witnessInput rfl (by decide) (by decide)
      (by decide)).1,
   rfl⟩

/-! ### String lemmas for the XML round trip (C4) -/

/-- takeWhile stops exactly at an appended failing character. -/
theorem takeWhile_all_append (p : Char → Bool) :
    ∀ (l : JStr), l.all p = true → ∀ (c : Char), p c = false → ∀ (r : JStr),
      (l ++ c :: r).takeWhile p = l
  | [], _, c, hc, r => by simp [List.takeWhile, hc]
  | a :: l, hl, c, hc, r => by
    simp only [List.all_cons, Bool.and_eq_true] at hl
    simp only [List.cons_append, List.takeWhile_cons, hl.1]
    rw [takeWhile_all_append p l hl.2 c hc r]
    simp

/-- The xml escape processes one character at a time. -/
theorem xmlEscape_cons (c : Char) (cs : JStr) :
    xmlEscape (c :: cs) =
      (if c = '&' then "&amp;".data else if c = '<' then "&lt;".data
       else if c = '>' then "&gt;".data else [c]) ++ xmlEscape cs := rfl

/-- No character of an xml-escaped text is an opening angle bracket. -/
theorem xmlEscape_no_lt (s : JStr) : (xmlEscape s).all (fun c => c ≠ '<') = true := by
  induction s with
  | nil => rfl
  | cons c cs ih =>
    rw [xmlEscape_cons, List.all_append]
    refine (Bool.and_eq_true _ _).mpr ⟨?_, ih⟩
    split_ifs with h1 h2 h3
    · decide
    · decide
    · decide
    · simp [h2]

/-- The xml escape of a nonempty text is nonempty. -/
theorem xmlEscape_ne_nil (s : JStr) (h : s ≠ []) : xmlEscape s ≠ [] := by
  match s, h with
  | c :: cs, _ =>
    show ((if c = '&' then "&amp;".data else if c = '<' then "&lt;".data
      else if c = '>' then "&gt;".data else [c]) ++ xmlEscape cs) ≠ []
    split_ifs <;> simp

/-- Entity decoding passes a plain (non-ampersand) head through. -/
theorem xmlUnescape_cons_plain (c : Char) (cs : JStr) (h : c ≠ '&') :
    xmlUnescape (c :: cs) = c :: xmlUnescape cs := by
  have he := xmlUnescape.eq_def (c :: cs)
  simp only [] at he
  rw [he, if_neg h]

/-- Entity decoding inverts the xml escape. -/
theorem xmlUnescape_xmlEscape (s : JStr) : xmlUnescape (xmlEscape s) = s := by
  induction s with
  | nil => rfl
  | cons c cs ih =>
    show xmlUnescape ((if c = '&' then "&amp;".data else if c = '<' then "&lt;".data
      else if c = '>' then "&gt;".data else [c]) ++ xmlEscape cs) = c :: cs
    split_ifs with h1 h2 h3
    · subst h1
      show xmlUnescape ('&' :: 'a' :: 'm' :: 'p' :: ';' :: xmlEscape cs) = '&' :: cs
      rw [show xmlUnescape ('&' :: 'a' :: 'm' :: 'p' :: ';' :: xmlEscape cs) =
        '&' :: xmlUnescape (xmlEscape cs) from rfl, ih]
    · subst h2
      show xmlUnescape ('&' :: 'l' :: 't' :: ';' :: xmlEscape cs) = '<' :: cs
      rw [show xmlUnescape ('&' :: 'l' :: 't' :: ';' :: xmlEscape cs) =
        '<' :: xmlUnescape (xmlEscape cs) from rfl, ih]
    · subst h3
      show xmlUnescape ('&' :: 'g' :: 't' :: ';' :: xmlEscape cs) = '>' :: cs
      rw [show xmlUnescape ('&' :: 'g' :: 't' :: ';' :: xmlEscape cs) =
        '>' :: xmlUnescape (xmlEscape cs) from rfl, ih]
    · rw [List.singleton_append, xmlUnescape_cons_plain c _ h1, ih]

/-- A text whose first and last characters are not whitespace trims to
itself. -/
theorem jsTrim_eq_self (l : JStr)
    (h1 : ∀ c, l.head? = some c → jsWsChar c = false)
    (h2 : ∀ c, l.getLast? = some c → jsWsChar c = false) : jsTrim l = l := by
  unfold jsTrim
  have hd : l.dropWhile jsWsChar = l := by
    cases hl : l with
    | nil => rfl
    | cons a t =>
      rw [List.dropWhile_cons, h1 a (by rw [hl]; rfl)]
      simp
  rw [hd]
  have hr : l.reverse.dropWhile jsWsChar = l.reverse := by
    cases hl : l.reverse with
    | nil => rfl
    | cons a t =>
      have hla : l.getLast? = some a := by
        rw [← List.head?_reverse, hl]
        rfl
      rw [List.dropWhile_cons, h2 a hla]
      simp
  rw [hr, List.reverse_reverse]

/-- A single-character pattern occurs wherever its character does. -/
theorem hasSubstr_of_mem (c : Char) (s : JStr) (h : c ∈ s) : hasSubstr [c] s = true := by
  induction s with
  | nil => cases h
  | cons a t ih =>
    unfold hasSubstr
    rcases List.mem_cons.mp h with h1 | h1
    · subst h1
      simp [List.isPrefixOf]
    · rw [ih h1]
      simp

/-- Strict-JSON whitespace skipping passes over an indentation pad. -/
theorem skipWs_pad (k : Nat) (x : JStr) : skipWs (pad k ++ x) = skipWs x := by
  induction k with
  | zero => rfl
  | succ n ih =>
    show skipWs (' ' :: (pad n ++ x)) = skipWs x
    rw [show skipWs (' ' :: (pad n ++ x)) = skipWs (pad n ++ x) from rfl, ih]

/-- Strict-JSON whitespace skipping passes over a newline. -/
theorem skipWs_nl (x : JStr) : skipWs ('\n' :: x) = skipWs x := rfl

/-- A non-whitespace head stops the skip. -/
theorem skipWs_cons_stop (c : Char) (x : JStr) (h : jsonWsChar c = false) :
    skipWs (c :: x) = c :: x := by
  unfold skipWs
  rw [List.dropWhile_cons, h]
  simp

/-- A scalar member with a nonempty String() image prints as an open
tag, the escaped text and a close tag. -/
theorem xmlPrintElem_scalar (e : Json) (hs : isScalar e = true)
    (hne : jsToString e ≠ []) : xmlPrintElem itemKey e = xmlItemPiece e := by
  cases e with
  | jnull => simp [isScalar] at hs
  | jarr xs => simp [isScalar] at hs
  | jobj ms => simp [isScalar] at hs
  | jbool b =>
    show (if xmlEscape (jsToString (Json.jbool b)) = [] then emptyTag itemKey
      else openTag itemKey ++ xmlEscape (jsToString (Json.jbool b)) ++ closeTag itemKey) =
        xmlItemPiece (Json.jbool b)
    rw [if_neg (xmlEscape_ne_nil _ hne)]
    rfl
  | jnum n =>
    show (if xmlEscape (jsToString (Json.jnum n)) = [] then emptyTag itemKey
      else openTag itemKey ++ xmlEscape (jsToString (Json.jnum n)) ++ closeTag itemKey) =
        xmlItemPiece (Json.jnum n)
    rw [if_neg (xmlEscape_ne_nil _ hne)]
    rfl
  | jstr s =>
    show (if xmlEscape (jsToString (Json.jstr s)) = [] then emptyTag itemKey
      else openTag itemKey ++ xmlEscape (jsToString (Json.jstr s)) ++ closeTag itemKey) =
        xmlItemPiece (Json.jstr s)
    rw [if_neg (xmlEscape_ne_nil _ hne)]
    rfl

/-- An array of nonempty scalars prints as the concatenation of its item
elements. -/
theorem xmlPrintRepeat_scalar : ∀ (elems : List Json),
    (∀ e ∈ elems, isScalar e = true) → (∀ e ∈ elems, jsToString e ≠ []) →
    xmlPrintRepeat itemKey elems = xmlItemsBody elems
  | [], _, _ => rfl
  | e :: tl, hs, hne => by
    show xmlPrintElem itemKey e ++ xmlPrintRepeat itemKey tl = _
    rw [xmlPrintElem_scalar e (hs e (List.mem_cons_self e tl))
        (hne e (List.mem_cons_self e tl)),
      xmlPrintRepeat_scalar tl (fun x hx => hs x (List.mem_cons_of_mem e hx))
        (fun x hx => hne x (List.mem_cons_of_mem e hx))]
    rfl

/-- The printed body of a nonempty array is nonempty. -/
theorem xmlItemsBody_ne_nil (e : Json) (tl : List Json) :
    xmlItemsBody (e :: tl) ≠ [] := by
  show xmlItemPiece e ++ xmlItemsBody tl ≠ []
  simp [xmlItemPiece, openTag]

/-- The compact printer renders the wrapped array as the item document. -/
theorem xmlPrintEntries_doc (elems : List Json) (e0 : Json) (tl : List Json)
    (helems : elems = e0 :: tl)
    (hs : ∀ e ∈ elems, isScalar e = true) (hne : ∀ e ∈ elems, jsToString e ≠ []) :
    xmlPrintEntries [(rootKey, Json.jobj [(itemKey, Json.jarr elems)])] =
      xmlItemsDoc elems := by
  have h1 : xmlPrintEntries [(rootKey, Json.jobj [(itemKey, Json.jarr elems)])] =
      xmlPrintElem rootKey (Json.jobj [(itemKey, Json.jarr elems)]) ++ [] := rfl
  have h2 : xmlPrintElem rootKey (Json.jobj [(itemKey, Json.jarr elems)]) =
      if xmlPrintEntries [(itemKey, Json.jarr elems)] = [] then emptyTag rootKey
      else openTag rootKey ++ xmlPrintEntries [(itemKey, Json.jarr elems)] ++
        closeTag rootKey := rfl
  have h3 : xmlPrintEntries [(itemKey, Json.jarr elems)] =
      xmlPrintRepeat itemKey elems ++ [] := rfl
  rw [h1, h2, h3, List.append_nil, List.append_nil,
    xmlPrintRepeat_scalar elems hs hne, helems,
    if_neg (xmlItemsBody_ne_nil e0 tl)]
  rfl

/-- The printed document carries no leading or trailing whitespace. -/
theorem xmlItemsDoc_trim (elems : List Json) :
    jsTrim (xmlItemsDoc elems) = xmlItemsDoc elems := by
  apply jsTrim_eq_self
  · intro c hc
    have : c = '<' := by
      have h2 : (xmlItemsDoc elems).head? = some '<' := by
        show ('<' :: (rootKey ++ ['>']) ++ (xmlItemsBody elems ++ closeTag rootKey)).head? =
          some '<'
        rfl
      rw [h2] at hc
      exact (Option.some.injEq _ _).mp hc.symm ▸ rfl
    subst this
    decide
  · intro c hc
    have h2 : (xmlItemsDoc elems).getLast? = some '>' := by
      show (openTag rootKey ++ (xmlItemsBody elems ++ closeTag rootKey)).getLast? = some '>'
      rw [List.getLast?_append_of_ne_nil, List.getLast?_append_of_ne_nil]
      · rfl
      · decide
      · show (xmlItemsBody elems ++ closeTag rootKey) ≠ []
        simp [closeTag]
    rw [h2] at hc
    have : c = '>' := by
      have := hc
      injection this with h3
      exact h3.symm
    subst this
    decide

/-- jsonToXml on a text that parses to an array of nonempty scalars
succeeds with the printed item document. -/
theorem jsonToXml_items (x : JStr) (elems : List Json) (e0 : Json) (tl : List Json)
    (helems : elems = e0 :: tl)
    (hp : jsonParse x = some (Json.jarr elems))
    (hs : ∀ e ∈ elems, isScalar e = true) (hne : ∀ e ∈ elems, jsToString e ≠ []) :
    jsonToXml modelLibs x = ⟨true, some (xmlItemsDoc elems), none⟩ := by
  have h1 : jsonToXml modelLibs x =
      (match jsonParse x with
       | none => ⟨false, none, some msgConvFailed⟩
       | some data =>
         match modelLibs.json2xmlC (xmlWrap data) with
         | .ok xml => ⟨true, some (jsTrim xml), none⟩
         | .error e => ⟨false, none, some e⟩) := rfl
  rw [h1, hp]
  have h2 : modelLibs.json2xmlC (xmlWrap (Json.jarr elems)) =
      .ok (xmlPrintEntries [(rootKey, Json.jobj [(itemKey, Json.jarr elems)])]) := rfl
  show (match modelLibs.json2xmlC (xmlWrap (Json.jarr elems)) with
        | .ok xml => (⟨true, some (jsTrim xml), none⟩ : EnvResult)
        | .error e => ⟨false, none, some e⟩) = _
  rw [h2, xmlPrintEntries_doc elems e0 tl helems hs hne]
  show (⟨true, some (jsTrim (xmlItemsDoc elems)), none⟩ : EnvResult) = _
  rw [xmlItemsDoc_trim]

/-- The model XML parser reads an escaped nonempty text run up to a
closing tag. -/
theorem xmlParseNodes_text (t : JStr) (ht : t ≠ []) (f : Nat) (hf : 2 ≤ f) (r : JStr) :
    xmlParseNodes f (xmlEscape t ++ ('<' :: '/' :: r)) =
      some ([XmlNode.xtext t], '<' :: '/' :: r) := by
  obtain ⟨f2, rfl⟩ : ∃ f2, f = f2 + 2 := ⟨f - 2, by omega⟩
  obtain ⟨d, ds, hesc⟩ : ∃ d ds, xmlEscape t = d :: ds := by
    cases h : xmlEscape t with
    | nil => exact absurd h (xmlEscape_ne_nil t ht)
    | cons d ds => exact ⟨d, ds, rfl⟩
  have hall : (xmlEscape t).all (fun c => c ≠ '<') = true := xmlEscape_no_lt t
  have hd : d ≠ '<' := by
    have hmem : d ∈ xmlEscape t := by
      rw [hesc]
      exact List.mem_cons_self _ _
    exact of_decide_eq_true (List.all_eq_true.mp hall d hmem)
  rw [hesc, List.cons_append, xmlParseNodes]
  · rw [← List.cons_append, ← hesc,
      takeWhile_all_append _ _ hall '<' (by decide) ('/' :: r), List.drop_left,
      xmlUnescape_xmlEscape]
    have hstop : xmlParseNodes (f2 + 1) ('<' :: '/' :: r) = some ([], '<' :: '/' :: r) := rfl
    rw [hstop]
  · exact hd

/-- The model XML parser reads one printed item element and hands the
tail to the sibling parse. -/
theorem xmlParseNodes_item_cons (t : JStr) (ht : t ≠ []) (f : Nat) (hf : 2 ≤ f)
    (TL : JStr) :
    xmlParseNodes (f + 1) (openTag itemKey ++ (xmlEscape t ++ (closeTag itemKey ++ TL))) =
      (match xmlParseNodes f TL with
       | some (sibs, r) => some (XmlNode.xelem itemKey [XmlNode.xtext t] :: sibs, r)
       | none => none) := by
  have hkids : xmlParseNodes f
      (xmlEscape t ++ ('<' :: '/' :: ('i' :: 't' :: 'e' :: 'm' :: '>' :: TL))) =
      some ([XmlNode.xtext t], '<' :: '/' :: ('i' :: 't' :: 'e' :: 'm' :: '>' :: TL)) :=
    xmlParseNodes_text t ht f hf _
  have h1 : xmlParseNodes (f + 1)
      (openTag itemKey ++ (xmlEscape t ++ (closeTag itemKey ++ TL))) =
      (match xmlParseNodes f
          (xmlEscape t ++ ('<' :: '/' :: ('i' :: 't' :: 'e' :: 'm' :: '>' :: TL))) with
       | some (kids, r3) =>
         match r3 with
         | '<' :: '/' :: r4 =>
           if itemKey.isPrefixOf r4 && (r4.drop itemKey.length).head? = some '>' then
             match xmlParseNodes f ((r4.drop itemKey.length).drop 1) with
             | some (sibs, r5) => some (XmlNode.xelem itemKey kids :: sibs, r5)
             | none => none
           else none
         | _ => none
       | none => none) := rfl
  rw [h1, hkids]
  rfl

/-- The model XML parser reads the printed item elements of an array of
nonempty scalars. -/
theorem xmlParseNodes_items : ∀ (elems : List Json),
    (∀ e ∈ elems, isScalar e = true) → (∀ e ∈ elems, jsToString e ≠ []) →
    ∀ (f : Nat) (r : JStr), elems.length + 3 ≤ f →
    xmlParseNodes f (xmlItemsBody elems ++ ('<' :: '/' :: r)) =
      some (elems.map xmlItemNode, '<' :: '/' :: r)
  | [], _, _, f, r, hf => by
    obtain ⟨f1, rfl⟩ : ∃ f1, f = f1 + 1 := ⟨f - 1, by omega⟩
    rfl
  | e :: tl, hs, hne, f, r, hf => by
    obtain ⟨f1, rfl⟩ : ∃ f1, f = f1 + 1 := ⟨f - 1, by omega⟩
    have hassoc : xmlItemsBody (e :: tl) ++ ('<' :: '/' :: r) =
        openTag itemKey ++ (xmlEscape (jsToString e) ++
          (closeTag itemKey ++ (xmlItemsBody tl ++ ('<' :: '/' :: r)))) := by
      show (xmlItemPiece e ++ xmlItemsBody tl) ++ ('<' :: '/' :: r) = _
      simp [xmlItemPiece, List.append_assoc]
    have hlen : tl.length + 3 ≤ f1 := by
      have := hf
      simp only [List.length_cons] at this
      omega
    rw [hassoc,
      xmlParseNodes_item_cons (jsToString e) (hne e (List.mem_cons_self e tl)) f1
        (by omega) _,
      xmlParseNodes_items tl (fun x hx => hs x (List.mem_cons_of_mem e hx))
        (fun x hx => hne x (List.mem_cons_of_mem e hx)) f1 r hlen]
    rfl

/-- The model XML parser reads the whole printed document as a single
root element. -/
theorem xmlParseNodes_doc (elems : List Json)
    (hs : ∀ e ∈ elems, isScalar e = true) (hne : ∀ e ∈ elems, jsToString e ≠ [])
    (f : Nat) (hf : elems.length + 5 ≤ f) :
    xmlParseNodes (f + 1) (xmlItemsDoc elems) =
      some ([XmlNode.xelem rootKey (elems.map xmlItemNode)], []) := by
  obtain ⟨f2, rfl⟩ : ∃ f2, f = f2 + 1 := ⟨f - 1, by omega⟩
  have hkids := xmlParseNodes_items elems hs hne (f2 + 1)
    ('r' :: 'o' :: 'o' :: 't' :: '>' :: []) (by omega)
  have h1 : xmlParseNodes (f2 + 1 + 1) (xmlItemsDoc elems) =
      (match xmlParseNodes (f2 + 1)
          (xmlItemsBody elems ++ ('<' :: '/' :: ('r' :: 'o' :: 'o' :: 't' :: '>' :: []))) with
       | some (kids, r3) =>
         match r3 with
         | '<' :: '/' :: r4 =>
           if rootKey.isPrefixOf r4 && (r4.drop rootKey.length).head? = some '>' then
             match xmlParseNodes (f2 + 1) ((r4.drop rootKey.length).drop 1) with
             | some (sibs, r5) => some (XmlNode.xelem rootKey kids :: sibs, r5)
             | none => none
           else none
         | _ => none
       | none => none) := rfl
  rw [h1, hkids]
  rfl

/-- Once the accumulator holds an item array, each further item node
appends its compact value. -/
theorem xmlCompactFold_items_acc : ∀ (tl : List Json) (a : List Json),
    xmlCompactFold [(itemKey, Json.jarr a)] (tl.map xmlItemNode) =
      [(itemKey, Json.jarr (a ++ tl.map xmlItemValue))]
  | [], a => by
    show [(itemKey, Json.jarr a)] = [(itemKey, Json.jarr (a ++ []))]
    rw [List.append_nil]
  | e :: tl, a => by
    show xmlCompactFold (xmlAccNode [(itemKey, Json.jarr a)] (xmlItemNode e))
      (tl.map xmlItemNode) = _
    have hacc : xmlAccNode [(itemKey, Json.jarr a)] (xmlItemNode e) =
        [(itemKey, Json.jarr (a ++ [xmlItemValue e]))] := rfl
    rw [hacc, xmlCompactFold_items_acc tl (a ++ [xmlItemValue e])]
    simp

/-- Two or more item nodes group into a single item array member. -/
theorem xmlElemJson_items (elems : List Json) (e0 e1 : Json) (tl : List Json)
    (helems : elems = e0 :: e1 :: tl) :
    xmlElemJson (elems.map xmlItemNode) =
      Json.jobj [(itemKey, Json.jarr (elems.map xmlItemValue))] := by
  subst helems
  have h1 : xmlAccNode ([] : List (JStr × Json)) (xmlItemNode e0) =
      [(itemKey, xmlItemValue e0)] := rfl
  have h2 : xmlAccNode [(itemKey, xmlItemValue e0)] (xmlItemNode e1) =
      [(itemKey, Json.jarr [xmlItemValue e0, xmlItemValue e1])] := rfl
  show Json.jobj (jsObjOrder (xmlCompactFold []
    ((e0 :: e1 :: tl).map xmlItemNode))) = _
  rw [List.map_cons, List.map_cons, xmlCompactFold, h1, xmlCompactFold, h2,
    xmlCompactFold_items_acc]
  rfl

/-- The printed body of an array is at least as long as the array. -/
theorem xmlItemsBody_len : ∀ (elems : List Json),
    elems.length ≤ (xmlItemsBody elems).length
  | [] => by simp [xmlItemsBody]
  | e :: tl => by
    have ih := xmlItemsBody_len tl
    show (e :: tl).length ≤ (xmlItemPiece e ++ xmlItemsBody tl).length
    have hp : 6 ≤ (xmlItemPiece e).length := by
      show 6 ≤ (openTag itemKey ++ (xmlEscape (jsToString e) ++ closeTag itemKey)).length
      have hil : List.length itemKey = 4 := by decide
      simp [openTag, closeTag]
      omega
    simp only [List.length_append, List.length_cons]
    omega

/-- The printed document is longer than the array plus the parser
overhead. -/
theorem xmlItemsDoc_len (elems : List Json) :
    elems.length + 13 ≤ (xmlItemsDoc elems).length := by
  have hb := xmlItemsBody_len elems
  show elems.length + 13 ≤ (openTag rootKey ++ (xmlItemsBody elems ++ closeTag rootKey)).length
  simp only [List.length_append]
  have h1 : (openTag rootKey).length = 6 := by decide
  have h2 : (closeTag rootKey).length = 7 := by decide
  omega

/-- The model xml2json on the printed document of an array of two or
more nonempty scalars produces the serialized compact tree. -/
theorem xml2jsonModel_doc (elems : List Json) (e0 e1 : Json) (tl : List Json)
    (helems : elems = e0 :: e1 :: tl)
    (hs : ∀ e ∈ elems, isScalar e = true) (hne : ∀ e ∈ elems, jsToString e ≠ []) :
    xml2jsonModel (xmlItemsDoc elems) = .ok (jsonStringify (c4json elems) 4) := by
  have hlb := xmlItemsDoc_len elems
  have hparse := xmlParseNodes_doc elems hs hne (xmlItemsDoc elems).length (by omega)
  have h1 : xml2jsonModel (xmlItemsDoc elems) =
      (match xmlParseNodes ((xmlItemsDoc elems).length + 1) (xmlItemsDoc elems) with
       | none => .error ("Unexpected XML markup".data)
       | some (nodes, rest) =>
         if rest ≠ [] then .error ("Unexpected closing tag".data)
         else
           let elems2 := nodes.filter fun n =>
             match n with | XmlNode.xelem _ _ => true | _ => false
           let badText := nodes.any fun n =>
             match n with
             | XmlNode.xtext t => (t.dropWhile jsWsChar) ≠ []
             | _ => false
           if badText then .error ("Text data outside of root node".data)
           else
             match elems2 with
             | [XmlNode.xelem name kids] =>
               .ok (jsonStringify (Json.jobj (jsObjOrder [(name, xmlElemJson kids)])) 4)
             | _ => .error ("Exactly one root element is required".data)) := rfl
  rw [h1, hparse]
  show Except.ok (jsonStringify (Json.jobj (jsObjOrder
    [(rootKey, xmlElemJson (elems.map xmlItemNode))])) 4) = _
  rw [xmlElemJson_items elems e0 e1 tl helems]
  rfl

/-- Normalizing the compact item values resolves each to its scalar. -/
theorem normXmlList_items : ∀ (elems : List Json),
    normXmlList (elems.map xmlItemValue) = elems.map xmlCoerce
  | [] => rfl
  | e :: tl => by
    show normalizeXmlJson (xmlItemValue e) :: normXmlList (tl.map xmlItemValue) = _
    rw [normXmlList_items tl]
    rfl

/-- Normalizing the compact tree of the printed document coerces each
leaf. -/
theorem normalizeXmlJson_c4 (elems : List Json) :
    normalizeXmlJson (c4json elems) =
      Json.jobj [(rootKey, Json.jobj [(itemKey, Json.jarr (elems.map xmlCoerce))])] := by
  have h1 : normalizeXmlJson (c4json elems) =
      mkObj [(rootKey, normalizeXmlJson
        (Json.jobj [(itemKey, Json.jarr (elems.map xmlItemValue))]))] := rfl
  have h2 : normalizeXmlJson (Json.jobj [(itemKey, Json.jarr (elems.map xmlItemValue))]) =
      mkObj [(itemKey, Json.jarr (normXmlList (elems.map xmlItemValue)))] := rfl
  rw [h1, h2, normXmlList_items]
  rfl

/-- A value parse only looks at the whitespace-stripped input. -/
theorem jpVal_skipWs (f : Nat) (s1 s2 : JStr) (h : skipWs s1 = skipWs s2) :
    jpVal f s1 = jpVal f s2 := by
  cases f with
  | zero => rfl
  | succ f => unfold jpVal; rw [h]

/-- An element-list parse only looks at the whitespace-stripped input. -/
theorem jpElems_skipWs (f : Nat) (s1 s2 : JStr) (acc : List Json)
    (h : skipWs s1 = skipWs s2) : jpElems f s1 acc = jpElems f s2 acc := by
  cases f with
  | zero => rfl
  | succ f => unfold jpElems; rw [jpVal_skipWs f s1 s2 h]

/-- A string literal parse consumes the escaped body up to the closing
quote. -/
theorem jpString_escBody (t rest : JStr) :
    jpString (escBody t ++ (dquote :: rest)) = some (t, rest) := by
  unfold jpString
  apply jpStr_escBody
  have := escBody_length t
  simp only [List.length_append, List.length_cons]
  omega

theorem jpVal_leafObj (t : JStr) (g : Nat) (r : JStr) :
    jpVal (g + 3) (jStringify (Json.jobj [(xtextKey, Json.jstr t)]) 4 3 ++ r) =
      some (Json.jobj [(xtextKey, Json.jstr t)], r) := by
  have h1 : jpVal (g + 3) (jStringify (Json.jobj [(xtextKey, Json.jstr t)]) 4 3 ++ r) =
      (match (jpString ((((escBody t ++ [dquote]) ++ ('\n' :: pad 12)) ++ [rbrace]) ++ r)).map
          (fun p => (Json.jstr p.1, p.2)) with
       | none => none
       | some (v1, r3) =>
         match skipWs r3 with
         | ',' :: r4 =>
           (match skipWs r4 with
            | c2 :: r5 => jpMems (g + 1) (c2 :: r5) ([] ++ [(xtextKey, v1)])
            | [] => none)
         | d :: r4 => if d = rbrace then some (mkObj ([] ++ [(xtextKey, v1)]), r4) else none
         | [] => none) := rfl
  rw [h1]
  simp only [List.append_assoc, List.singleton_append, List.cons_append]
  rw [jpString_escBody]
  rfl

/-- The object-open step of the value parser. -/
theorem jpVal_lbrace (G : Nat) (cs : JStr) :
    jpVal (G + 1) (lbrace :: cs) =
      (match skipWs cs with
       | d :: rr => if d = rbrace then some (Json.jobj [], rr) else jpMems G (d :: rr) []
       | [] => none) := rfl

/-- The array-open step of the value parser. -/
theorem jpVal_lbrack (G : Nat) (cs : JStr) :
    jpVal (G + 1) ('[' :: cs) =
      (match skipWs cs with
       | ']' :: rr => some (Json.jarr [], rr)
       | rr => jpElems G rr []) := rfl

/-- One unfolding of the element-list parser. -/
theorem jpElems_cons_eq (f : Nat) (s : JStr) (acc : List Json) :
    jpElems (f + 1) s acc =
      (match jpVal f s with
       | none => none
       | some (v, rr) =>
         match skipWs rr with
         | ',' :: r2 => jpElems f r2 (v :: acc)
         | ']' :: r2 => some (Json.jarr (v :: acc).reverse, r2)
         | _ => none) := rfl

/-- The element parse of serialized leaf objects up to the closing
bracket. -/
theorem jpElems_leafObjs : ∀ (ts : List JStr) (t0 : JStr) (g : Nat) (acc : List Json)
    (r : JStr), ts.length + 4 ≤ g →
    jpElems g (jStringifyArr ((t0 :: ts).map fun t => Json.jobj [(xtextKey, Json.jstr t)])
        4 3 ++ ('\n' :: (pad 8 ++ (']' :: r)))) acc =
      some (Json.jarr (acc.reverse ++
        (t0 :: ts).map fun t => Json.jobj [(xtextKey, Json.jstr t)]), r)
  | [], t0, g, acc, r, hg => by
    obtain ⟨G, rfl⟩ : ∃ G, g = G + 4 := ⟨g - 4, by omega⟩
    have hone : jStringifyArr ((t0 :: ([] : List JStr)).map fun t =>
        Json.jobj [(xtextKey, Json.jstr t)]) 4 3 =
        jStringify (Json.jobj [(xtextKey, Json.jstr t0)]) 4 3 := rfl
    rw [hone, jpElems_cons_eq, jpVal_leafObj]
    simp only []
    rw [show skipWs ('\n' :: (pad 8 ++ (']' :: r))) = ']' :: r from rfl]
    simp only [List.reverse_cons]
    rfl
  | t1 :: ts2, t0, g, acc, r, hg => by
    obtain ⟨G, rfl⟩ : ∃ G, g = G + 4 := ⟨g - 4, by omega⟩
    have hshape : jStringifyArr ((t0 :: t1 :: ts2).map fun t =>
          Json.jobj [(xtextKey, Json.jstr t)]) 4 3 ++ ('\n' :: (pad 8 ++ (']' :: r))) =
        jStringify (Json.jobj [(xtextKey, Json.jstr t0)]) 4 3 ++
          (',' :: ('\n' :: (pad 12 ++
            (jStringifyArr ((t1 :: ts2).map fun t => Json.jobj [(xtextKey, Json.jstr t)])
              4 3 ++ ('\n' :: (pad 8 ++ (']' :: r))))))) := by
      simp [jStringifyArr, List.append_assoc]
    rw [hshape, jpElems_cons_eq, jpVal_leafObj]
    simp only []
    rw [show skipWs (',' :: ('\n' :: (pad 12 ++
        (jStringifyArr ((t1 :: ts2).map fun t => Json.jobj [(xtextKey, Json.jstr t)]) 4 3 ++
          ('\n' :: (pad 8 ++ (']' :: r))))))) =
      ',' :: ('\n' :: (pad 12 ++
        (jStringifyArr ((t1 :: ts2).map fun t => Json.jobj [(xtextKey, Json.jstr t)]) 4 3 ++
          ('\n' :: (pad 8 ++ (']' :: r)))))) from rfl]
    simp only []
    rw [jpElems_skipWs (G + 3) _
        (jStringifyArr ((t1 :: ts2).map fun t => Json.jobj [(xtextKey, Json.jstr t)]) 4 3 ++
          ('\n' :: (pad 8 ++ (']' :: r))))
        (Json.jobj [(xtextKey, Json.jstr t0)] :: acc)
        (by rw [skipWs_nl, skipWs_pad]),
      jpElems_leafObjs ts2 t1 (G + 3) (Json.jobj [(xtextKey, Json.jstr t0)] :: acc) r
        (by simp only [List.length_cons] at hg ⊢; omega)]
    simp

/-- The value parse of a serialized nonempty array of leaf objects. -/
theorem jpVal_arr (ts : List JStr) (t0 : JStr) (g : Nat) (r : JStr)
    (hg : ts.length + 5 ≤ g) :
    jpVal g (jStringify (Json.jarr ((t0 :: ts).map fun t =>
        Json.jobj [(xtextKey, Json.jstr t)])) 4 2 ++ r) =
      some (Json.jarr ((t0 :: ts).map fun t => Json.jobj [(xtextKey, Json.jstr t)]), r) := by
  obtain ⟨G, rfl⟩ : ∃ G, g = G + 1 := ⟨g - 1, by omega⟩
  have e1 : jStringify (Json.jarr ((t0 :: ts).map fun t =>
        Json.jobj [(xtextKey, Json.jstr t)])) 4 2 ++ r =
      '[' :: ('\n' :: (pad 12 ++ (jStringifyArr ((t0 :: ts).map fun t =>
        Json.jobj [(xtextKey, Json.jstr t)]) 4 3 ++ ('\n' :: (pad 8 ++ (']' :: r)))))) := by
    simp [jStringify, List.append_assoc]
  rw [e1, jpVal_lbrack]
  obtain ⟨w, hw⟩ : ∃ w, jStringifyArr ((t0 :: ts).map fun t =>
      Json.jobj [(xtextKey, Json.jstr t)]) 4 3 = lbrace :: w := by
    cases ts with
    | nil => exact ⟨_, rfl⟩
    | cons t1 ts2 => exact ⟨_, rfl⟩
  have hskip : skipWs ('\n' :: (pad 12 ++ (jStringifyArr ((t0 :: ts).map fun t =>
        Json.jobj [(xtextKey, Json.jstr t)]) 4 3 ++ ('\n' :: (pad 8 ++ (']' :: r)))))) =
      lbrace :: (w ++ ('\n' :: (pad 8 ++ (']' :: r)))) := by
    rw [skipWs_nl, skipWs_pad, hw, List.cons_append, skipWs_cons_stop _ _ (by decide)]
  rw [hskip]
  show jpElems G (lbrace :: (w ++ ('\n' :: (pad 8 ++ (']' :: r))))) [] = _
  rw [show lbrace :: (w ++ ('\n' :: (pad 8 ++ (']' :: r)))) =
      jStringifyArr ((t0 :: ts).map fun t => Json.jobj [(xtextKey, Json.jstr t)]) 4 3 ++
        ('\n' :: (pad 8 ++ (']' :: r))) from by rw [hw, List.cons_append],
    jpElems_leafObjs ts t0 G [] r (by omega)]
  rfl

/-- One unfolding of the member parser at a key quote. -/
theorem jpMems_quote_eq (G2 : Nat) (cs : JStr) (acc : List (JStr × Json)) :
    jpMems (G2 + 1) (dquote :: cs) acc =
      (match jpString cs with
       | none => none
       | some (k1, r1) =>
         match skipWs r1 with
         | ':' :: r2 =>
           (match jpVal G2 r2 with
            | none => none
            | some (v1, r3) =>
              match skipWs r3 with
              | ',' :: r4 =>
                (match skipWs r4 with
                 | c2 :: r5 => jpMems G2 (c2 :: r5) (acc ++ [(k1, v1)])
                 | [] => none)
              | d :: r4 => if d = rbrace then some (mkObj (acc ++ [(k1, v1)]), r4) else none
              | [] => none)
         | _ => none) := rfl

/-- The value parse of a serialized one-member object whose value
serialization parses back to the value. -/
theorem jpVal_obj1 (k : JStr) (v : Json) (d : Nat) (B : Nat)
    (hv : ∀ g r, B ≤ g → jpVal g (jStringify v 4 (d + 1) ++ r) = some (v, r)) :
    ∀ (g : Nat) (r : JStr), B + 2 ≤ g →
    jpVal g (jStringify (Json.jobj [(k, v)]) 4 d ++ r) = some (mkObj [(k, v)], r) := by
  intro g r hg
  obtain ⟨G2, rfl⟩ : ∃ G2, g = G2 + 2 := ⟨g - 2, by omega⟩
  have hB : B ≤ G2 := by omega
  have e1 : jStringify (Json.jobj [(k, v)]) 4 d ++ r =
      lbrace :: ('\n' :: (pad (4 * (d + 1)) ++ (dquote :: (escBody k ++ (dquote ::
        (':' :: (' ' :: (jStringify v 4 (d + 1) ++
          ('\n' :: (pad (4 * d) ++ (rbrace :: r)))))))))) ) := by
    simp [jStringify, jStringifyMems, quoteStr, List.append_assoc]
  rw [e1, jpVal_lbrace]
  have hskip : skipWs ('\n' :: (pad (4 * (d + 1)) ++ (dquote :: (escBody k ++ (dquote ::
      (':' :: (' ' :: (jStringify v 4 (d + 1) ++
        ('\n' :: (pad (4 * d) ++ (rbrace :: r))))))))))) =
      dquote :: (escBody k ++ (dquote :: (':' :: (' ' :: (jStringify v 4 (d + 1) ++
        ('\n' :: (pad (4 * d) ++ (rbrace :: r)))))))) := by
    rw [skipWs_nl, skipWs_pad, skipWs_cons_stop _ _ (by decide)]
  rw [hskip]
  show jpMems (G2 + 1) (dquote :: (escBody k ++ (dquote :: (':' :: (' ' ::
    (jStringify v 4 (d + 1) ++ ('\n' :: (pad (4 * d) ++ (rbrace :: r))))))))) [] = _
  rw [jpMems_quote_eq, jpString_escBody]
  simp only []
  rw [show skipWs (':' :: (' ' :: (jStringify v 4 (d + 1) ++
      ('\n' :: (pad (4 * d) ++ (rbrace :: r)))))) =
    ':' :: (' ' :: (jStringify v 4 (d + 1) ++
      ('\n' :: (pad (4 * d) ++ (rbrace :: r))))) from rfl]
  simp only []
  rw [jpVal_skipWs G2 (' ' :: (jStringify v 4 (d + 1) ++
      ('\n' :: (pad (4 * d) ++ (rbrace :: r)))))
      (jStringify v 4 (d + 1) ++ ('\n' :: (pad (4 * d) ++ (rbrace :: r)))) rfl,
    hv G2 ('\n' :: (pad (4 * d) ++ (rbrace :: r))) hB]
  simp only []
  rw [show skipWs ('\n' :: (pad (4 * d) ++ (rbrace :: r))) = rbrace :: r from by
    rw [skipWs_nl, skipWs_pad, skipWs_cons_stop _ _ (by decide)]]
  show (if rbrace = rbrace then some (mkObj ([] ++ [(k, v)]), r) else none) = _
  rw [if_pos rfl, List.nil_append]

/-- The value parse of the serialized item member object. -/
theorem jpVal_itemObjP (ts : List JStr) (t0 : JStr) (g : Nat) (r : JStr)
    (hg : ts.length + 7 ≤ g) :
    jpVal g (jStringify (Json.jobj [(itemKey, Json.jarr ((t0 :: ts).map fun t =>
        Json.jobj [(xtextKey, Json.jstr t)]))]) 4 1 ++ r) =
      some (Json.jobj [(itemKey, Json.jarr ((t0 :: ts).map fun t =>
        Json.jobj [(xtextKey, Json.jstr t)]))], r) := by
  have h := jpVal_obj1 itemKey (Json.jarr ((t0 :: ts).map fun t =>
      Json.jobj [(xtextKey, Json.jstr t)])) 1 (ts.length + 5)
    (fun g2 r2 h2 => jpVal_arr ts t0 g2 r2 h2) g r (by omega)
  rw [h]
  rfl

/-- The value parse of the serialized root object. -/
theorem jpVal_rootObjP (ts : List JStr) (t0 : JStr) (g : Nat) (r : JStr)
    (hg : ts.length + 9 ≤ g) :
    jpVal g (jStringify (Json.jobj [(rootKey, Json.jobj [(itemKey,
        Json.jarr ((t0 :: ts).map fun t => Json.jobj [(xtextKey, Json.jstr t)]))])]) 4 0
        ++ r) =
      some (Json.jobj [(rootKey, Json.jobj [(itemKey,
        Json.jarr ((t0 :: ts).map fun t => Json.jobj [(xtextKey, Json.jstr t)]))])], r) := by
  have h := jpVal_obj1 rootKey (Json.jobj [(itemKey,
      Json.jarr ((t0 :: ts).map fun t => Json.jobj [(xtextKey, Json.jstr t)]))]) 0
      (ts.length + 7)
    (fun g2 r2 h2 => jpVal_itemObjP ts t0 g2 r2 h2) g r (by omega)
  rw [h]
  rfl

/-- Each serialized element contributes at least one character. -/
theorem jStringifyArr_leaf_len : ∀ (ts : List JStr) (t0 : JStr),
    ts.length + 1 ≤ (jStringifyArr ((t0 :: ts).map fun t =>
      Json.jobj [(xtextKey, Json.jstr t)]) 4 3).length
  | [], t0 => by
    obtain ⟨w, hw⟩ : ∃ w, jStringifyArr ((t0 :: ([] : List JStr)).map fun t =>
        Json.jobj [(xtextKey, Json.jstr t)]) 4 3 = lbrace :: w := ⟨_, rfl⟩
    rw [hw]
    simp
  | t1 :: ts2, t0 => by
    have ih := jStringifyArr_leaf_len ts2 t1
    have hshape : jStringifyArr ((t0 :: t1 :: ts2).map fun t =>
          Json.jobj [(xtextKey, Json.jstr t)]) 4 3 =
        jStringify (Json.jobj [(xtextKey, Json.jstr t0)]) 4 3 ++
          (',' :: ('\n' :: (pad 12 ++
            (jStringifyArr ((t1 :: ts2).map fun t => Json.jobj [(xtextKey, Json.jstr t)])
              4 3)))) := by
      simp [jStringifyArr, List.append_assoc]
    rw [hshape]
    simp only [List.length_append, List.length_cons]
    omega

/-- A singleton object wrapper only lengthens a serialization. -/
theorem jStringify_obj1_len (k : JStr) (v : Json) (d : Nat) :
    (jStringify v 4 (d + 1)).length + 4 ≤ (jStringify (Json.jobj [(k, v)]) 4 d).length := by
  have e1 : jStringify (Json.jobj [(k, v)]) 4 d =
      lbrace :: ('\n' :: (pad (4 * (d + 1)) ++ (dquote :: (escBody k ++ (dquote ::
        (':' :: (' ' :: (jStringify v 4 (d + 1) ++
          ('\n' :: (pad (4 * d) ++ [rbrace])))))))))) := by
    simp [jStringify, jStringifyMems, quoteStr, List.append_assoc]
  rw [e1]
  simp only [List.length_append, List.length_cons]
  omega

/-- The array wrapper only lengthens the element list. -/
theorem jStringify_arrWrap_len (ts : List JStr) (t0 : JStr) :
    (jStringifyArr ((t0 :: ts).map fun t => Json.jobj [(xtextKey, Json.jstr t)])
      4 3).length + 4 ≤
    (jStringify (Json.jarr ((t0 :: ts).map fun t =>
      Json.jobj [(xtextKey, Json.jstr t)])) 4 2).length := by
  have e1 : jStringify (Json.jarr ((t0 :: ts).map fun t =>
        Json.jobj [(xtextKey, Json.jstr t)])) 4 2 =
      '[' :: ('\n' :: (pad 12 ++ (jStringifyArr ((t0 :: ts).map fun t =>
        Json.jobj [(xtextKey, Json.jstr t)]) 4 3 ++ ('\n' :: (pad 8 ++ [']']))))) := by
    simp [jStringify, List.append_assoc]
  rw [e1]
  simp only [List.length_append, List.length_cons]
  omega

/-- The parse of the whole serialized compact document. -/
theorem jsonParse_leafDoc (ts : List JStr) (t0 : JStr) :
    jsonParse (jStringify (Json.jobj [(rootKey, Json.jobj [(itemKey,
        Json.jarr ((t0 :: ts).map fun t => Json.jobj [(xtextKey, Json.jstr t)]))])]) 4 0) =
      some (Json.jobj [(rootKey, Json.jobj [(itemKey,
        Json.jarr ((t0 :: ts).map fun t => Json.jobj [(xtextKey, Json.jstr t)]))])]) := by
  have hlen : ts.length + 9 ≤ 2 * (jStringify (Json.jobj [(rootKey, Json.jobj [(itemKey,
      Json.jarr ((t0 :: ts).map fun t => Json.jobj [(xtextKey, Json.jstr t)]))])]) 4
      0).length + 2 := by
    have h1 := jStringifyArr_leaf_len ts t0
    have h2 := jStringify_arrWrap_len ts t0
    have h3 := jStringify_obj1_len itemKey (Json.jarr ((t0 :: ts).map fun t =>
      Json.jobj [(xtextKey, Json.jstr t)])) 1
    have h4 := jStringify_obj1_len rootKey (Json.jobj [(itemKey,
      Json.jarr ((t0 :: ts).map fun t => Json.jobj [(xtextKey, Json.jstr t)]))]) 0
    simp only [List.map_cons] at h1 h2 h3 h4 ⊢
    norm_num at h3 h4
    omega
  have h2 := jpVal_rootObjP ts t0 (2 * (jStringify (Json.jobj [(rootKey, Json.jobj
    [(itemKey, Json.jarr ((t0 :: ts).map fun t =>
      Json.jobj [(xtextKey, Json.jstr t)]))])]) 4 0).length + 2) [] hlen
  rw [List.append_nil] at h2
  have h1 : jsonParse (jStringify (Json.jobj [(rootKey, Json.jobj [(itemKey,
      Json.jarr ((t0 :: ts).map fun t => Json.jobj [(xtextKey, Json.jstr t)]))])]) 4 0) =
      (match jpVal (2 * (jStringify (Json.jobj [(rootKey, Json.jobj [(itemKey,
          Json.jarr ((t0 :: ts).map fun t => Json.jobj [(xtextKey, Json.jstr t)]))])]) 4
          0).length + 2)
        (jStringify (Json.jobj [(rootKey, Json.jobj [(itemKey,
          Json.jarr ((t0 :: ts).map fun t => Json.jobj [(xtextKey, Json.jstr t)]))])]) 4 0)
        with
       | some (v, rr) => if skipWs rr = [] then some v else none
       | none => none) := rfl
  rw [h1, h2]
  rfl

/-- The parse of the serialized compact tree returns the tree. -/
theorem jsonParse_c4 (elems : List Json) (e0 e1 : Json) (tl : List Json)
    (helems : elems = e0 :: e1 :: tl) :
    jsonParse (jsonStringify (c4json elems) 4) = some (c4json elems) := by
  subst helems
  have hm : (e0 :: e1 :: tl).map xmlItemValue =
      (jsToString e0 :: (e1 :: tl).map jsToString).map fun t =>
        Json.jobj [(xtextKey, Json.jstr t)] := by
    simp [xmlItemValue]
  have hc : c4json (e0 :: e1 :: tl) =
      Json.jobj [(rootKey, Json.jobj [(itemKey, Json.jarr ((jsToString e0 ::
        (e1 :: tl).map jsToString).map fun t => Json.jobj [(xtextKey, Json.jstr t)]))])] := by
    show Json.jobj [(rootKey, Json.jobj [(itemKey,
      Json.jarr ((e0 :: e1 :: tl).map xmlItemValue))])] = _
    rw [hm]
  show jsonParse (jStringify (c4json (e0 :: e1 :: tl)) 4 0) = _
  rw [hc, jsonParse_leafDoc, ← hc]

/-- The shape of a serialized one-member object at the top level. -/
theorem jStringify_obj1_shape (k : JStr) (v : Json) :
    jStringify (Json.jobj [(k, v)]) 4 0 =
      lbrace :: (('\n' :: (pad 4 ++ (dquote :: (escBody k ++ (dquote :: (':' :: (' ' ::
        (jStringify v 4 1 ++ ('\n' :: pad 0))))))))) ++ [rbrace]) := by
  simp [jStringify, jStringifyMems, quoteStr, List.append_assoc]

/-- A serialized one-member object carries no leading or trailing
whitespace. -/
theorem jsTrim_obj1 (k : JStr) (v : Json) :
    jsTrim (jStringify (Json.jobj [(k, v)]) 4 0) = jStringify (Json.jobj [(k, v)]) 4 0 := by
  apply jsTrim_eq_self
  · intro c hc
    rw [jStringify_obj1_shape] at hc
    simp only [List.head?_cons] at hc
    injection hc with h
    rw [← h]
    decide
  · intro c hc
    rw [jStringify_obj1_shape, ← List.cons_append] at hc
    rw [List.getLast?_append_of_ne_nil _ (by simp)] at hc
    simp only [List.getLast?_singleton] at hc
    injection hc with h
    rw [← h]
    decide

/-- xmlToJson on the printed document of an array of two or more
nonempty scalars succeeds with the coerced array serialization. -/
theorem xmlToJson_doc (elems : List Json) (e0 e1 : Json) (tl : List Json)
    (helems : elems = e0 :: e1 :: tl)
    (hs : ∀ e ∈ elems, isScalar e = true) (hne : ∀ e ∈ elems, jsToString e ≠ []) :
    xmlToJson modelLibs (xmlItemsDoc elems) =
      ⟨true, some (jsonStringify (Json.jarr (elems.map xmlCoerce)) 4), none⟩ := by
  have htrim := xmlItemsDoc_trim elems
  have hlt : hasSubstr ['<'] (xmlItemsDoc elems) = true := by
    apply hasSubstr_of_mem
    show '<' ∈ openTag rootKey ++ (xmlItemsBody elems ++ closeTag rootKey)
    exact List.mem_append.mpr (Or.inl (by decide))
  have hgt : hasSubstr ['>'] (xmlItemsDoc elems) = true := by
    apply hasSubstr_of_mem
    show '>' ∈ openTag rootKey ++ (xmlItemsBody elems ++ closeTag rootKey)
    exact List.mem_append.mpr (Or.inl (by decide))
  have hx2j : modelLibs.xml2jsonC (xmlItemsDoc elems) =
      .ok (jsonStringify (c4json elems) 4) := xml2jsonModel_doc elems e0 e1 tl helems hs hne
  have h1 : xmlToJson modelLibs (xmlItemsDoc elems) =
      (if ¬ (hasSubstr ['<'] (jsTrim (xmlItemsDoc elems)) &&
            hasSubstr ['>'] (jsTrim (xmlItemsDoc elems))) then
        ⟨false, none, some msgXmlFormatErr⟩
      else
        match modelLibs.xml2jsonC (jsTrim (xmlItemsDoc elems)) with
        | .error e => ⟨false, none, some (xmlCatchMsg e)⟩
        | .ok result =>
          if ¬ ((jsTrim result).head? = some lbrace ||
              (jsTrim result).head? = some '[') then
            ⟨false, none, some msgXmlNotJson⟩
          else
            match jsonParse result with
            | none => ⟨false, none, some msgXmlInvalidJson⟩
            | some jsonData =>
              match normalizeXmlJson jsonData with
              | Json.jobj [(k, rootContent)] =>
                if k = rootKey then
                  match rootContent with
                  | Json.jobj [(k2, item)] =>
                    if k2 = itemKey then
                      match item with
                      | Json.jarr xs => ⟨true, some (jsonStringify (Json.jarr xs) 4), none⟩
                      | _ => ⟨true, some (jsonStringify rootContent 4), none⟩
                    else ⟨true, some (jsonStringify rootContent 4), none⟩
                  | _ => ⟨true, some (jsonStringify rootContent 4), none⟩
                else ⟨true, some (jsonStringify (normalizeXmlJson jsonData) 4), none⟩
              | _ => ⟨true, some (jsonStringify (normalizeXmlJson jsonData) 4), none⟩) := rfl
  rw [h1, htrim, hlt, hgt, if_neg (by decide), hx2j]
  simp only []
  have hhead : (jsTrim (jsonStringify (c4json elems) 4)).head? = some lbrace := by
    show (jsTrim (jStringify (Json.jobj [(rootKey, Json.jobj [(itemKey,
      Json.jarr (elems.map xmlItemValue))])]) 4 0)).head? = some lbrace
    rw [jsTrim_obj1, jStringify_obj1_shape]
    rfl
  rw [if_neg (by rw [hhead]; decide)]
  rw [jsonParse_c4 elems e0 e1 tl helems]
  simp only []
  rw [normalizeXmlJson_c4]
  rfl

/-- C4 (amended): for every text that parses as a JSON array of two or
more scalar members whose String() images are nonempty, jsonToXml
succeeds with the printed item document, and xmlToJson on that document
succeeds with the 4-space serialization of the array of coerced leaves
(each member replaced by the scalar resolution of its String() image). -/
theorem c4_xml_roundtrip_amended (x : JStr) (elems : List Json) (e0 e1 : Json)
    (tl : List Json) (helems : elems = e0 :: e1 :: tl)
    (hp : jsonParse x = some (Json.jarr elems))
    (hs : ∀ e ∈ elems, isScalar e = true) (hne : ∀ e ∈ elems, jsToString e ≠ []) :
    jsonToXml modelLibs x = ⟨true, some (xmlItemsDoc elems), none⟩ ∧
    xmlToJson modelLibs (xmlItemsDoc elems) =
      ⟨true, some (jsonStringify (Json.jarr (elems.map xmlCoerce)) 4), none⟩ :=
  ⟨jsonToXml_items x elems e0 (e1 :: tl) helems hp hs hne,
   xmlToJson_doc elems e0 e1 tl helems hs hne⟩

/-- Witness for the amended C4 theorem at the input [1,2]. -/
theorem c4_xml_roundtrip_amended_witness :
    jsonParse ("[1,2]".data) =
      some (Json.jarr [Json.jnum ⟨false, 1, 0⟩, Json.jnum ⟨false, 2, 0⟩]) ∧
    (jsonToXml modelLibs ("[1,2]".data) =
      ⟨true, some (xmlItemsDoc [Json.jnum ⟨false, 1, 0⟩, Json.jnum ⟨false, 2, 0⟩]),
        none⟩ ∧
     xmlToJson modelLibs (xmlItemsDoc [Json.jnum ⟨false, 1, 0⟩, Json.jnum ⟨false, 2, 0⟩]) =
      ⟨true, some (jsonStringify (Json.jarr
        ([Json.jnum ⟨false, 1, 0⟩, Json.jnum ⟨false, 2, 0⟩].map xmlCoerce)) 4), none⟩) :=
  ⟨by decide,
   c4_xml_roundtrip_amended ("[1,2]".data)
     [Json.jnum ⟨false, 1, 0⟩, Json.jnum ⟨false, 2, 0⟩]
     (Json.jnum ⟨false, 1, 0⟩) (Json.jnum ⟨false, 2, 0⟩) [] rfl (by decide)
     (by decide) (by decide)⟩
